import Mathlib

/-!
# Library search of arduino-cli (`commands/lib/search.go`)

A shallow embedding of `LibrarySearch`, `searchLibrary`,
`indexLibraryToRPCSearchLibrary`, `getLibraryParameters` and
`getLibraryDependenciesParameter`, followed by the theorems that settle the
specification's claims about them.

Conventions of the embedding:

* a Go `string` holding valid UTF-8 is a Lean `String`; Go `len` is
  `String.utf8ByteSize`, a Go `rune` is an `Int`;
* a Go pointer that can be missing (`lib.Latest`, `rel.Version`,
  `rel.Resource`) and the constraint of a dependency, an interface value, are
  an `Option`; dereferencing `none` is the fault `Fault.nilDereference`, and
  every function that can dereference one of them returns in `Except Fault`;
* a Go `map[string]V` is an association list with distinct keys
  (`AList`), `m[k] = v` is `AList.insert`;
* the fuzzy matcher `fuzzy.RankFindNormalizedFold` belongs to the external
  module `github.com/lithammer/fuzzysearch`; it is a parameter of the search;
* the instance table behind `commands.GetLibraryManager` is a parameter of
  `LibrarySearch`.
-/

namespace LibSearch

/-! ## Go runtime: faults, strings -/

/-- The run-time fault of dereferencing a nil pointer. -/
inductive Fault where
  | nilDereference
  deriving DecidableEq, Repr

/-- Dereference of a pointer modelled as an `Option`. -/
def deref {α : Type} : Option α → Except Fault α
  | some a => .ok a
  | none => .error .nilDereference

/-- A Go `error` value (`errors.New msg`); `none` of `Option GoError` is the nil error. -/
structure GoError where
  msg : String
  deriving DecidableEq, Repr

/-- Go `map[string]V`: finitely many entries with pairwise distinct keys. -/
abbrev GoMap (V : Type) : Type := AList (fun _ : String => V)

/-- Go `len(s)` of a string: the number of bytes of its UTF-8 encoding. -/
def len (s : String) : Nat := s.utf8ByteSize

/-- Membership of a code point in a cutset, as `strings.Trim` tests it. -/
def inCutset (cutset : String) (c : Char) : Bool := cutset.data.contains c

/-- Go `strings.Trim(s, cutset)`: `s` with all leading and trailing code points
contained in `cutset` removed. -/
def stringsTrim (s cutset : String) : String :=
  ⟨((s.data.dropWhile (inCutset cutset)).reverse.dropWhile (inCutset cutset)).reverse⟩

/-- One step of Go `strings.Map`: the code point is dropped when the mapping
returns a negative value, and replaced by the returned rune otherwise. -/
def mapRune (mapping : Char → Int) (c : Char) : List Char :=
  if mapping c < 0 then [] else [Char.ofNat (mapping c).toNat]

/-- Go `strings.Map(mapping, s)`. -/
def stringsMap (mapping : Char → Int) (s : String) : String :=
  ⟨s.data.flatMap (mapRune mapping)⟩

/-! ## External collaborators -/

/-- Modelled from the spec: `version` (semantic version) and the
`versionConstraint` of a dependency are values of `go.bug.st/relaxed-semver`,
which is not among the sources; the mapper only ever reads their string form,
so a value is represented by that canonical string. -/
structure Version where
  canonical : String
  deriving DecidableEq, Repr

/-- Go `(*semver.Version).String()` on a non-nil version. -/
def Version.String (v : Version) : String := v.canonical

/-- Modelled from the spec: a version constraint, "opaque string form of a
constraint expression"; see `Version`. -/
structure Constraint where
  canonical : String
  deriving DecidableEq, Repr

/-- Go `semver.Constraint.String()`. -/
def Constraint.String (c : Constraint) : String := c.canonical

/-- Go `semver.Dependency`, read through `GetName` and `GetConstraint`. The
constraint is an interface value and may be nil (`none`). -/
structure Dependency where
  Name : String
  VersionConstraint : Option Constraint
  deriving DecidableEq, Repr

def Dependency.GetName (d : Dependency) : String := d.Name

def Dependency.GetConstraint (d : Dependency) : Option Constraint := d.VersionConstraint

/-- One entry of `fuzzy.Ranks`: the target that was ranked and its distance to
the source. -/
structure Rank where
  Target : String
  Distance : Int
  deriving DecidableEq, Repr

/-- The type of `fuzzy.RankFindNormalizedFold(source, targets)`. -/
abbrev RankFind : Type := String → List String → List Rank

/-! ## Catalog (`librariesindex`, `resources`) -/

/-- Go `resources.DownloadResource`. -/
structure DownloadResource where
  URL : String
  ArchiveFileName : String
  Checksum : String
  Size : Int
  CachePath : String
  deriving DecidableEq, Repr

/-- Go `librariesindex.Release`. -/
structure Release where
  Author : String
  Version : Option Version
  Dependencies : List Dependency
  Maintainer : String
  Sentence : String
  Paragraph : String
  Website : String
  Category : String
  Architectures : List String
  Types : List String
  Resource : Option DownloadResource
  License : String
  ProvidesIncludes : List String
  deriving DecidableEq, Repr

def Release.GetDependencies (rel : Release) : List Dependency := rel.Dependencies

/-- Go `librariesindex.Library`. -/
structure Library where
  Name : String
  Releases : GoMap Release
  Latest : Option Release

/-- Modelled from the spec: "Catalog: an ordered collection of Package
entries"; `Libraries` is the sequence in which `range lm.Index.Libraries`
yields the packages. -/
structure Index where
  Libraries : List Library

/-- Go `librariesmanager.LibrariesManager`, of which the search reads `Index`. -/
structure LibrariesManager where
  Index : Index

/-! ## Wire types (`rpc`) -/

/-- Go `rpc.DownloadResource`. -/
structure RpcDownloadResource where
  Url : String
  Archivefilename : String
  Checksum : String
  Size : Int
  Cachepath : String
  deriving DecidableEq, Repr

/-- Go `rpc.LibraryDependency`. -/
structure LibraryDependency where
  Name : String
  VersionConstraint : String
  deriving DecidableEq, Repr

/-- Go `rpc.LibraryRelease`. -/
structure LibraryRelease where
  Author : String
  Version : String
  Maintainer : String
  Sentence : String
  Paragraph : String
  Website : String
  Category : String
  Architectures : List String
  Types : List String
  License : String
  ProvidesIncludes : List String
  Dependencies : List LibraryDependency
  Resources : RpcDownloadResource
  deriving DecidableEq, Repr

/-- Go `rpc.SearchedLibrary`. -/
structure SearchedLibrary where
  Name : String
  Releases : GoMap LibraryRelease
  Latest : LibraryRelease

/-- Go `rpc.LibrarySearchStatus`. -/
inductive LibrarySearchStatus where
  | failed
  | success
  deriving DecidableEq, Repr

/-- Go `rpc.LibrarySearchResp`. -/
structure LibrarySearchResp where
  Libraries : List SearchedLibrary
  Status : LibrarySearchStatus

/-- Go `rpc.Instance`. -/
structure Instance where
  Id : Int
  deriving DecidableEq, Repr

/-- Go `rpc.LibrarySearchReq`. -/
structure LibrarySearchReq where
  Instance : Option Instance
  Query : String
  deriving DecidableEq, Repr

def LibrarySearchReq.GetQuery (req : LibrarySearchReq) : String := req.Query

def LibrarySearchReq.GetInstance (req : LibrarySearchReq) : Option LibSearch.Instance :=
  req.Instance

/-- Go `(*rpc.Instance).GetId()`: the generated getter is nil-safe and returns
the zero value on a nil instance. -/
def GetId : Option Instance → Int
  | some inst => inst.Id
  | none => 0

/-- The type of `commands.GetLibraryManager`: the process-wide instance table,
which yields the library manager of an instance id, or nil. -/
abbrev InstanceTable : Type := Int → Option LibrariesManager

/-! ## `search.go` -/

/-- Source `getLibraryDependenciesParameter`: the loop appends one
`rpc.LibraryDependency` per dependency to `res`, which starts empty. The call
`dep.GetConstraint().String()` faults when the constraint is nil. -/
def getLibraryDependenciesParameterLoop :
    List Dependency → List LibraryDependency → Except Fault (List LibraryDependency)
  | [], res => .ok res
  | dep :: deps, res => do
    let constraint ← deref dep.GetConstraint
    getLibraryDependenciesParameterLoop deps
      (res ++ [{ Name := dep.GetName, VersionConstraint := constraint.String }])

def getLibraryDependenciesParameter (deps : List Dependency) :
    Except Fault (List LibraryDependency) :=
  getLibraryDependenciesParameterLoop deps []

/-- Source `getLibraryParameters`; `rel`, `rel.Version` and `rel.Resource` are
pointers, dereferenced in the order of the struct literal, in which the
dependencies are converted between the version and the resource. -/
def getLibraryParameters (rel : Option Release) : Except Fault LibraryRelease := do
  let rel ← deref rel
  let version ← deref rel.Version
  let dependencies ← getLibraryDependenciesParameter rel.GetDependencies
  let resource ← deref rel.Resource
  pure {
    Author := rel.Author
    Version := version.String
    Maintainer := rel.Maintainer
    Sentence := rel.Sentence
    Paragraph := rel.Paragraph
    Website := rel.Website
    Category := rel.Category
    Architectures := rel.Architectures
    Types := rel.Types
    License := rel.License
    ProvidesIncludes := rel.ProvidesIncludes
    Dependencies := dependencies
    Resources := {
      Url := resource.URL
      Archivefilename := resource.ArchiveFileName
      Checksum := resource.Checksum
      Size := resource.Size
      Cachepath := resource.CachePath } }

/-- The loop `for str, rel := range lib.Releases { releases[str] = getLibraryParameters(rel) }`
over the entries of the map, `releases` being the accumulator. -/
def releasesLoop :
    List (Sigma fun _ : String => Release) → GoMap LibraryRelease →
      Except Fault (GoMap LibraryRelease)
  | [], releases => .ok releases
  | ⟨str, rel⟩ :: rest, releases => do
    let r ← getLibraryParameters (some rel)
    releasesLoop rest (releases.insert str r)

/-- Source `indexLibraryToRPCSearchLibrary`. -/
def indexLibraryToRPCSearchLibrary (lib : Library) : Except Fault SearchedLibrary := do
  let releases ← releasesLoop lib.Releases.entries ∅
  let latest ← getLibraryParameters lib.Latest
  pure { Name := lib.Name, Releases := releases, Latest := latest }

/-- The threshold chosen by `searchLibrary`: 150, lowered to 40 when
`len(query) <= 4`. -/
def maximumSearchDistance (query : String) : Int :=
  if len query ≤ 4 then 40 else 150

/-- The function literal passed to `strings.Map`. A Go `switch` case does not
fall through: the cases for the underscore and the hyphen have an empty body
and leave the switch, after which `return r` runs; only the case of the space
returns -1. -/
def cleanQueryMapping (r : Char) : Int :=
  if r = '_' then (r.toNat : Int)
  else if r = '-' then (r.toNat : Int)
  else if r = ' ' then -1
  else (r.toNat : Int)

/-- The cleaned query computed by `searchLibrary`. -/
def cleanQuery (query : String) : String := stringsMap cleanQueryMapping query

/-- Innermost loop of `searchLibrary`, over the ranks returned by the matcher:
at the first rank below the threshold the mapped library is appended to `res`
and control jumps to `nextLib` (result `some res`); when the ranks are
exhausted the loop falls through (result `none`). -/
def rankLoop (maximum : Int) (lib : Library) (res : List SearchedLibrary) :
    List Rank → Except Fault (Option (List SearchedLibrary))
  | [] => .ok none
  | rank :: ranks =>
    if rank.Distance < maximum then do
      let r ← indexLibraryToRPCSearchLibrary lib
      pure (some (res ++ [r]))
    else rankLoop maximum lib res ranks

/-- Middle loop of `searchLibrary`, over the query variants; each iteration
builds `toTest`, dereferencing `lib.Latest`. -/
def queryLoop (rankFind : RankFind) (maximum : Int) (lib : Library)
    (res : List SearchedLibrary) :
    List String → Except Fault (Option (List SearchedLibrary))
  | [] => .ok none
  | q :: qs => do
    let latest ← deref lib.Latest
    let toTest := [lib.Name, latest.Paragraph, latest.Sentence]
    match ← rankLoop maximum lib res (rankFind q toTest) with
    | some res => pure (some res)
    | none => queryLoop rankFind maximum lib res qs

/-- Outer loop of `searchLibrary`, over the libraries of the index. -/
def libraryLoop (rankFind : RankFind) (maximum : Int) (query cleaned : String) :
    List Library → List SearchedLibrary → Except Fault (List SearchedLibrary)
  | [], res => .ok res
  | lib :: libs, res => do
    match ← queryLoop rankFind maximum lib res [query, cleaned] with
    | some res => libraryLoop rankFind maximum query cleaned libs res
    | none => libraryLoop rankFind maximum query cleaned libs res

/-- The loop of the empty-query branch: every library is mapped and appended. -/
def allLoop : List Library → List SearchedLibrary → Except Fault (List SearchedLibrary)
  | [], res => .ok res
  | lib :: libs, res => do
    let r ← indexLibraryToRPCSearchLibrary lib
    allLoop libs (res ++ [r])

/-- Source `searchLibrary`. The Go function returns a response and an error;
the error is `none` for Go's nil. -/
def searchLibrary (rankFind : RankFind) (req : LibrarySearchReq) (lm : LibrariesManager) :
    Except Fault (LibrarySearchResp × Option GoError) := do
  let query := req.GetQuery
  let res : List SearchedLibrary := []
  let status := LibrarySearchStatus.success
  if stringsTrim query " " = "" then
    let res ← allLoop lm.Index.Libraries res
    pure ({ Libraries := res, Status := status }, none)
  else
    let res ← libraryLoop rankFind (maximumSearchDistance query) query (cleanQuery query)
      lm.Index.Libraries res
    pure ({ Libraries := res, Status := status }, none)

/-- Source `LibrarySearch`; `GetLibraryManager` is the instance table of the
`commands` package, a parameter here. The Go function returns a response
pointer and an error. -/
def LibrarySearch (rankFind : RankFind) (GetLibraryManager : InstanceTable)
    (req : LibrarySearchReq) : Except Fault (Option LibrarySearchResp × Option GoError) :=
  match GetLibraryManager (GetId req.GetInstance) with
  | none => .ok (none, some ⟨"invalid instance"⟩)
  | some lm => do
    let (resp, err) ← searchLibrary rankFind req lm
    pure (some resp, err)

/-! ## Well-formed catalogs and the inclusion rule in the specification's words -/

/-- A release that has a version and a resource descriptor and whose
dependencies all have a version constraint. -/
def Release.wellFormed (rel : Release) : Bool :=
  rel.Version.isSome && rel.Resource.isSome &&
    rel.Dependencies.all fun dep => dep.GetConstraint.isSome

/-- A release whose dependencies all have a version constraint. -/
def Release.hasConstraints (rel : Release) : Bool :=
  rel.Dependencies.all fun dep => dep.GetConstraint.isSome

/-- A package in which every dependency of every release, latest or listed, has
a version constraint. -/
def Library.hasConstraints (lib : Library) : Bool :=
  (match lib.Latest with
    | some rel => rel.hasConstraints
    | none => true) &&
  lib.Releases.entries.all fun e => e.2.hasConstraints

/-- A catalog in which every dependency has a version constraint. -/
def LibrariesManager.hasConstraints (lm : LibrariesManager) : Bool :=
  lm.Index.Libraries.all Library.hasConstraints

/-- A package whose latest release is present and well formed and whose listed
releases are well formed. -/
def Library.wellFormed (lib : Library) : Bool :=
  (match lib.Latest with
    | some rel => rel.wellFormed
    | none => false) &&
  lib.Releases.entries.all fun e => e.2.wellFormed

/-- A catalog all of whose packages are well formed: the data-model invariant
of the specification. -/
def LibrariesManager.wellFormed (lm : LibrariesManager) : Bool :=
  lm.Index.Libraries.all Library.wellFormed

/-- Specification 4.2: some field is ranked for `q` with a distance strictly
below `maximum`. -/
def fieldsMatch (rankFind : RankFind) (maximum : Int) (q : String) (fields : List String) : Bool :=
  (rankFind q fields).any fun rank => decide (rank.Distance < maximum)

/-- Specification 4.3, step 4: the field set is tested against the raw query
first and against the cleaned query if that failed. A package without a latest
release lies outside the data model (the source faults on it) and is not
selected. -/
def included (rankFind : RankFind) (maximum : Int) (query cleaned : String) (lib : Library) : Bool :=
  match lib.Latest with
  | none => false
  | some latest =>
    fieldsMatch rankFind maximum query [lib.Name, latest.Paragraph, latest.Sentence] ||
      fieldsMatch rankFind maximum cleaned [lib.Name, latest.Paragraph, latest.Sentence]

/-- The relation "`r` is the mapped form of `lib`". -/
def MappedFrom (lib : Library) (r : SearchedLibrary) : Prop :=
  indexLibraryToRPCSearchLibrary lib = .ok r

/-- The relation "`d` is the mapped form of the dependency `dep`": the pair of
its name and of the string form of its constraint. -/
def MappedDependency (dep : Dependency) (d : LibraryDependency) : Prop :=
  ∃ c, dep.GetConstraint = some c ∧ d = { Name := dep.GetName, VersionConstraint := c.String }

/-! ## A reference matcher and sample data -/

/-- Whether the code points of the first list occur, in order, in the second. -/
def isSubsequence : List Char → List Char → Bool
  | [], _ => true
  | _ :: _, [] => false
  | a :: as, b :: bs => if a = b then isSubsequence as bs else isSubsequence (a :: as) bs

/-- Case folding of ASCII letters. -/
def foldCase (s : String) : List Char := s.data.map Char.toLower

/-- Modelled from the spec: the fuzzy matcher of section 4.2, which is the
external module `github.com/lithammer/fuzzysearch` and not among the sources:
"case-fold both strings, then rank by a Levenshtein-family distance". A target
is ranked when the case-folded source is a subsequence of the case-folded
target, and its distance is the Levenshtein distance between the two
case-folded strings. It instantiates the matcher parameter at concrete
inputs. -/
def referenceRankFind : RankFind := fun source targets =>
  targets.filterMap fun target =>
    if isSubsequence (foldCase source) (foldCase target) then
      some { Target := target
             Distance :=
              ((levenshtein Levenshtein.defaultCost (foldCase source) (foldCase target) : Nat) :
                Int) }
    else none

/-- The matcher as the external library behaves on ASCII text: the match test
is made on the case-folded strings, while the distance is the Levenshtein
distance between the source and the target as given. -/
def libraryRankFind : RankFind := fun source targets =>
  targets.filterMap fun target =>
    if isSubsequence (foldCase source) (foldCase target) then
      some { Target := target
             Distance :=
              ((levenshtein Levenshtein.defaultCost source.data target.data : Nat) : Int) }
    else none

/-- The query with its letters replaced by their upper-case forms. -/
def toUpperCase (s : String) : String := ⟨s.data.map Char.toUpper⟩

/-- The query with its letters replaced by their lower-case forms. -/
def toLowerCase (s : String) : String := ⟨s.data.map Char.toLower⟩

/-- An instance table with the single instance 1, bound to `lm`. -/
def singleInstance (lm : LibrariesManager) : InstanceTable := fun id =>
  if id = 1 then some lm else none

/-- A matcher that ranks every target at the same distance `d`. -/
def constantRankFind (d : Int) : RankFind := fun _ targets =>
  targets.map fun target => { Target := target, Distance := d }

/-- A matcher that ranks only the first target, at distance `d`. -/
def firstTargetRankFind (d : Int) : RankFind := fun _ targets =>
  (targets.take 1).map fun target => { Target := target, Distance := d }

def sampleResource : DownloadResource :=
  { URL := "https://downloads.arduino.cc/libraries/WiFi101-0.16.1.zip"
    ArchiveFileName := "WiFi101-0.16.1.zip"
    Checksum := "SHA-256:00"
    Size := 231
    CachePath := "libraries" }

def sampleRelease : Release :=
  { Author := "Arduino"
    Version := some ⟨"0.16.1"⟩
    Dependencies := [⟨"SPI", some ⟨">=1.0.0"⟩⟩, ⟨"Wire", some ⟨""⟩⟩]
    Maintainer := "Arduino"
    Sentence := ""
    Paragraph := ""
    Website := "http://www.arduino.cc"
    Category := "Communication"
    Architectures := ["*"]
    Types := ["Arduino"]
    Resource := some sampleResource
    License := "LGPL"
    ProvidesIncludes := ["WiFi101.h"] }

/-- A package named `wifi101` with empty description fields. -/
def sampleLibrary : Library :=
  { Name := "wifi101"
    Releases := (∅ : GoMap Release).insert "0.16.1" sampleRelease
    Latest := some sampleRelease }

/-- A second package, named `Servo`. -/
def otherLibrary : Library :=
  { Name := "Servo"
    Releases := ∅
    Latest := some { sampleRelease with Sentence := "Controls servo motors", Dependencies := [] } }

def sampleManager : LibrariesManager := ⟨⟨[sampleLibrary, otherLibrary]⟩⟩

/-- The catalog holding the package `wifi101` only. -/
def wifiManager : LibrariesManager := ⟨⟨[sampleLibrary]⟩⟩

/-- A package named `Ethernet` whose sentence has 40 lower-case characters and
holds the letters of `wifi` in order. -/
def ethernetLibrary : Library :=
  { Name := "Ethernet"
    Releases := ∅
    Latest := some { sampleRelease with Sentence := "enables wireless fidelity networking now" } }

/-- The catalog holding the package `Ethernet` only. -/
def ethernetManager : LibrariesManager := ⟨⟨[ethernetLibrary]⟩⟩

/-! ## Lemmas on strings -/

theorem inCutset_space (c : Char) : inCutset " " c = true ↔ c = ' ' := by
  simp [inCutset]

theorem dropWhile_reverse_dropWhile_eq_nil {α : Type} (p : α → Bool) (l : List α) :
    (l.dropWhile p).reverse.dropWhile p = [] ↔ ∀ x ∈ l, p x = true := by
  constructor
  · intro h
    have h1 : ∀ x ∈ l.dropWhile p, p x = true := by
      intro x hx
      exact (List.dropWhile_eq_nil_iff.mp h) x (List.mem_reverse.mpr hx)
    have h2 : l.dropWhile p = [] := by
      cases hd : l.dropWhile p with
      | nil => rfl
      | cons a t =>
        have hne : l.dropWhile p ≠ [] := by simp [hd]
        have hhead := List.head_dropWhile_not p l hne
        have hmem : (l.dropWhile p).head hne ∈ l.dropWhile p := List.head_mem hne
        have := h1 _ hmem
        simp [this] at hhead
    exact List.dropWhile_eq_nil_iff.mp h2
  · intro h
    have h2 : l.dropWhile p = [] := List.dropWhile_eq_nil_iff.mpr h
    simp [h2]

/-- The test `strings.Trim(query, " ") == ""` holds exactly for the queries
made of ASCII spaces only. -/
theorem stringsTrim_space_eq_empty_iff (query : String) :
    stringsTrim query " " = "" ↔ ∀ c ∈ query.data, c = ' ' := by
  have hiff : stringsTrim query " " = "" ↔
      ((query.data.dropWhile (inCutset " ")).reverse.dropWhile (inCutset " ")) = [] := by
    unfold stringsTrim
    constructor
    · intro h
      have := congrArg String.data h
      simpa using this
    · intro h
      rw [h]
      rfl
  rw [hiff, dropWhile_reverse_dropWhile_eq_nil]
  simp only [inCutset_space]

/-! ## Lemmas on the mapper -/

theorem getLibraryDependenciesParameterLoop_spec (deps : List Dependency)
    (h : ∀ dep ∈ deps, ∃ c, dep.GetConstraint = some c) (res : List LibraryDependency) :
    ∃ out, getLibraryDependenciesParameterLoop deps res = .ok (res ++ out) ∧
      List.Forall₂ MappedDependency deps out := by
  induction deps generalizing res with
  | nil => exact ⟨[], by simp [getLibraryDependenciesParameterLoop], List.Forall₂.nil⟩
  | cons dep deps ih =>
    obtain ⟨c, hc⟩ := h dep (by simp)
    obtain ⟨out, hout, hall⟩ := ih (fun d hd => h d (List.mem_cons_of_mem _ hd))
      (res ++ [{ Name := dep.GetName, VersionConstraint := c.String }])
    refine ⟨{ Name := dep.GetName, VersionConstraint := c.String } :: out, ?_,
      List.Forall₂.cons ⟨c, hc, rfl⟩ hall⟩
    simp [getLibraryDependenciesParameterLoop, hc, deref, hout, bind, Except.bind]

/-- When every dependency has a constraint the conversion returns the mapped
dependencies, in order. -/
theorem getLibraryDependenciesParameter_spec (deps : List Dependency)
    (h : ∀ dep ∈ deps, ∃ c, dep.GetConstraint = some c) :
    ∃ out, getLibraryDependenciesParameter deps = .ok out ∧
      List.Forall₂ MappedDependency deps out := by
  obtain ⟨out, hout, hall⟩ := getLibraryDependenciesParameterLoop_spec deps h []
  exact ⟨out, by simpa [getLibraryDependenciesParameter] using hout, hall⟩

theorem forall₂_getElem? {α β : Type} {R : α → β → Prop} {l₁ : List α} {l₂ : List β}
    (h : List.Forall₂ R l₁ l₂) (i : Nat) (a : α) (ha : l₁[i]? = some a) :
    ∃ b, l₂[i]? = some b ∧ R a b := by
  induction h generalizing i with
  | nil => simp at ha
  | @cons a₁ b₁ t₁ t₂ hab _ ih =>
    cases i with
    | zero =>
      simp only [List.getElem?_cons_zero, Option.some.injEq] at ha
      subst ha
      exact ⟨b₁, by simp, hab⟩
    | succ n =>
      simp only [List.getElem?_cons_succ] at ha
      obtain ⟨b, hb, hr⟩ := ih n ha
      exact ⟨b, by simpa using hb, hr⟩

theorem getLibraryParameters_some (rel : Release) (v : Version) (resource : DownloadResource)
    (dependencies : List LibraryDependency)
    (hv : rel.Version = some v) (hr : rel.Resource = some resource)
    (hd : getLibraryDependenciesParameter rel.GetDependencies = .ok dependencies) :
    getLibraryParameters (some rel) = .ok {
      Author := rel.Author
      Version := v.String
      Maintainer := rel.Maintainer
      Sentence := rel.Sentence
      Paragraph := rel.Paragraph
      Website := rel.Website
      Category := rel.Category
      Architectures := rel.Architectures
      Types := rel.Types
      License := rel.License
      ProvidesIncludes := rel.ProvidesIncludes
      Dependencies := dependencies
      Resources := {
        Url := resource.URL
        Archivefilename := resource.ArchiveFileName
        Checksum := resource.Checksum
        Size := resource.Size
        Cachepath := resource.CachePath } } := by
  simp [getLibraryParameters, deref, hv, hr, hd, bind, Except.bind, pure, Except.pure]

theorem Release.wellFormed_dependencies (rel : Release) (h : rel.wellFormed = true) :
    ∀ dep ∈ rel.GetDependencies, ∃ c, dep.GetConstraint = some c := by
  unfold Release.wellFormed at h
  simp only [Bool.and_eq_true, List.all_eq_true] at h
  intro dep hdep
  exact Option.isSome_iff_exists.mp (h.2 dep hdep)

theorem getLibraryParameters_wellFormed (rel : Release) (h : rel.wellFormed = true) :
    ∃ r, getLibraryParameters (some rel) = .ok r := by
  obtain ⟨dependencies, hd, -⟩ :=
    getLibraryDependenciesParameter_spec rel.GetDependencies (rel.wellFormed_dependencies h)
  unfold Release.wellFormed at h
  cases hv : rel.Version with
  | none => simp [hv] at h
  | some v =>
    cases hr : rel.Resource with
    | none => simp [hr] at h
    | some resource => exact ⟨_, getLibraryParameters_some rel v resource dependencies hv hr hd⟩

/-- The loop over the releases of a package: on well-formed releases it ends
without fault, every key of the traversed entries is bound to the mapped form
of its release, and every other key keeps its binding in the accumulator. -/
theorem releasesLoop_spec (es : List (Sigma fun _ : String => Release)) (hnd : es.NodupKeys)
    (hwf : ∀ e ∈ es, e.2.wellFormed = true) (acc : GoMap LibraryRelease) :
    ∃ out, releasesLoop es acc = .ok out ∧
      (∀ k rel, es.dlookup k = some rel →
        ∃ r, getLibraryParameters (some rel) = .ok r ∧ out.lookup k = some r) ∧
      (∀ k, es.dlookup k = none → out.lookup k = acc.lookup k) := by
  induction es generalizing acc with
  | nil =>
    refine ⟨acc, rfl, ?_, ?_⟩
    · intro k rel h
      simp at h
    · intro k _
      rfl
  | cons e es ih =>
    obtain ⟨str, rel⟩ := e
    rw [List.nodupKeys_cons] at hnd
    obtain ⟨hstr, hnd⟩ := hnd
    obtain ⟨r, hr⟩ := getLibraryParameters_wellFormed rel (hwf ⟨str, rel⟩ (by simp))
    obtain ⟨out, hout, hin, hnot⟩ :=
      ih hnd (fun e he => hwf e (List.mem_cons_of_mem _ he)) (acc.insert str r)
    refine ⟨out, ?_, ?_, ?_⟩
    · simp [releasesLoop, hr, hout, bind, Except.bind]
    · intro k rel1 hk
      by_cases hks : k = str
      · subst hks
        rw [List.dlookup_cons_eq] at hk
        have hrel : rel = rel1 := by simpa using hk
        subst hrel
        refine ⟨r, hr, ?_⟩
        rw [hnot k (List.dlookup_eq_none.mpr hstr)]
        exact AList.lookup_insert acc
      · rw [List.dlookup_cons_ne es (Sigma.mk str rel) hks] at hk
        exact hin k rel1 hk
    · intro k hk
      by_cases hks : k = str
      · subst hks
        rw [List.dlookup_cons_eq] at hk
        simp at hk
      · rw [List.dlookup_cons_ne es (Sigma.mk str rel) hks] at hk
        rw [hnot k hk]
        exact AList.lookup_insert_ne hks

theorem Library.wellFormed_latest (lib : Library) (h : lib.wellFormed = true) :
    ∃ latest, lib.Latest = some latest ∧ latest.wellFormed = true := by
  unfold Library.wellFormed at h
  cases hl : lib.Latest with
  | none => simp [hl] at h
  | some latest =>
    simp [hl] at h
    exact ⟨latest, rfl, h.1⟩

theorem Library.wellFormed_releases (lib : Library) (h : lib.wellFormed = true) :
    ∀ e ∈ lib.Releases.entries, e.2.wellFormed = true := by
  unfold Library.wellFormed at h
  simp only [Bool.and_eq_true, List.all_eq_true] at h
  exact h.2

/-- A well-formed package is mapped without fault. -/
theorem indexLibraryToRPCSearchLibrary_wellFormed (lib : Library) (h : lib.wellFormed = true) :
    ∃ r, MappedFrom lib r := by
  obtain ⟨latest, hl, hlw⟩ := lib.wellFormed_latest h
  obtain ⟨out, hout, -, -⟩ :=
    releasesLoop_spec lib.Releases.entries lib.Releases.nodupKeys (lib.wellFormed_releases h) ∅
  obtain ⟨r, hr⟩ := getLibraryParameters_wellFormed latest hlw
  refine ⟨{ Name := lib.Name, Releases := out, Latest := r }, ?_⟩
  simp [MappedFrom, indexLibraryToRPCSearchLibrary, hout, hl, hr, bind, Except.bind,
    pure, Except.pure]

/-! ## Lemmas on the loops of `searchLibrary` -/

theorem allLoop_spec (libs : List Library) (hwf : ∀ lib ∈ libs, lib.wellFormed = true)
    (res : List SearchedLibrary) :
    ∃ out, allLoop libs res = .ok (res ++ out) ∧ List.Forall₂ MappedFrom libs out := by
  induction libs generalizing res with
  | nil => exact ⟨[], by simp [allLoop], List.Forall₂.nil⟩
  | cons lib libs ih =>
    obtain ⟨r, hr⟩ := indexLibraryToRPCSearchLibrary_wellFormed lib (hwf lib (by simp))
    obtain ⟨out, hout, hall⟩ := ih (fun l hl => hwf l (List.mem_cons_of_mem _ hl)) (res ++ [r])
    refine ⟨r :: out, ?_, List.Forall₂.cons hr hall⟩
    have hr1 : indexLibraryToRPCSearchLibrary lib = .ok r := hr
    simp [allLoop, hr1, hout, bind, Except.bind]

theorem rankLoop_spec (maximum : Int) (lib : Library) (res : List SearchedLibrary)
    (r : SearchedLibrary) (hr : MappedFrom lib r) (ranks : List Rank) :
    rankLoop maximum lib res ranks =
      .ok (if ranks.any (fun rank => decide (rank.Distance < maximum)) = true
        then some (res ++ [r]) else none) := by
  have hr1 : indexLibraryToRPCSearchLibrary lib = .ok r := hr
  induction ranks with
  | nil => simp [rankLoop]
  | cons rank ranks ih =>
    by_cases hd : rank.Distance < maximum
    · simp [rankLoop, hd, hr1, bind, Except.bind, pure, Except.pure]
    · simp [rankLoop, hd, ih]

theorem queryLoop_spec (rankFind : RankFind) (maximum : Int) (lib : Library)
    (res : List SearchedLibrary) (r : SearchedLibrary) (latest : Release)
    (hl : lib.Latest = some latest) (hr : MappedFrom lib r) (qs : List String) :
    queryLoop rankFind maximum lib res qs =
      .ok (if qs.any (fun q =>
          fieldsMatch rankFind maximum q [lib.Name, latest.Paragraph, latest.Sentence]) = true
        then some (res ++ [r]) else none) := by
  induction qs with
  | nil => simp [queryLoop]
  | cons q qs ih =>
    by_cases hq : fieldsMatch rankFind maximum q [lib.Name, latest.Paragraph, latest.Sentence] = true
    · have hq1 := hq
      unfold fieldsMatch at hq1
      simp [queryLoop, hl, deref, rankLoop_spec maximum lib res r hr, hq, hq1, bind, Except.bind,
        pure, Except.pure]
    · have hq1 := hq
      unfold fieldsMatch at hq1
      simp [queryLoop, hl, deref, rankLoop_spec maximum lib res r hr, hq, hq1, ih, bind,
        Except.bind]

/-- The labelled loop keeps exactly the packages selected by `included`, in
catalog order, each mapped once. -/
theorem libraryLoop_spec (rankFind : RankFind) (maximum : Int) (query cleaned : String)
    (libs : List Library) (hwf : ∀ lib ∈ libs, lib.wellFormed = true)
    (res : List SearchedLibrary) :
    ∃ out, libraryLoop rankFind maximum query cleaned libs res = .ok (res ++ out) ∧
      List.Forall₂ MappedFrom (libs.filter (included rankFind maximum query cleaned)) out := by
  induction libs generalizing res with
  | nil => exact ⟨[], by simp [libraryLoop], by simp⟩
  | cons lib libs ih =>
    have hlib := hwf lib (by simp)
    obtain ⟨r, hr⟩ := indexLibraryToRPCSearchLibrary_wellFormed lib hlib
    obtain ⟨latest, hl, -⟩ := lib.wellFormed_latest hlib
    have hq := queryLoop_spec rankFind maximum lib res r latest hl hr [query, cleaned]
    have hwf1 : ∀ l ∈ libs, l.wellFormed = true := fun l hl => hwf l (List.mem_cons_of_mem _ hl)
    by_cases hinc : included rankFind maximum query cleaned lib = true
    · obtain ⟨out, hout, hall⟩ := ih hwf1 (res ++ [r])
      refine ⟨r :: out, ?_, ?_⟩
      · have hany : [query, cleaned].any (fun q =>
            fieldsMatch rankFind maximum q [lib.Name, latest.Paragraph, latest.Sentence]) = true := by
          simpa [included, hl] using hinc
        rw [hany] at hq
        simp [libraryLoop, hq, hout, bind, Except.bind]
      · rw [List.filter_cons_of_pos hinc]
        exact List.Forall₂.cons hr hall
    · obtain ⟨out, hout, hall⟩ := ih hwf1 res
      refine ⟨out, ?_, ?_⟩
      · have hany : ¬ [query, cleaned].any (fun q =>
            fieldsMatch rankFind maximum q [lib.Name, latest.Paragraph, latest.Sentence]) = true := by
          simpa [included, hl] using hinc
        rw [if_neg hany] at hq
        simp [libraryLoop, hq, hout, bind, Except.bind]
      · rw [List.filter_cons_of_neg hinc]
        exact hall

theorem LibrariesManager.wellFormed_mem (lm : LibrariesManager) (h : lm.wellFormed = true) :
    ∀ lib ∈ lm.Index.Libraries, lib.wellFormed = true := by
  unfold LibrariesManager.wellFormed at h
  simpa [List.all_eq_true] using h

/-- The empty-query branch of `searchLibrary` on a well-formed catalog. -/
theorem searchLibrary_blank (rankFind : RankFind) (req : LibrarySearchReq)
    (lm : LibrariesManager) (hwf : lm.wellFormed = true)
    (hblank : stringsTrim req.GetQuery " " = "") :
    ∃ libs, searchLibrary rankFind req lm = .ok ({ Libraries := libs, Status := .success }, none) ∧
      List.Forall₂ MappedFrom lm.Index.Libraries libs := by
  obtain ⟨out, hout, hall⟩ := allLoop_spec lm.Index.Libraries (lm.wellFormed_mem hwf) []
  refine ⟨out, ?_, hall⟩
  simp only [List.nil_append] at hout
  simp [searchLibrary, hblank, hout, bind, Except.bind, pure, Except.pure]

/-- The matching branch of `searchLibrary` on a well-formed catalog. -/
theorem searchLibrary_nonblank (rankFind : RankFind) (req : LibrarySearchReq)
    (lm : LibrariesManager) (hwf : lm.wellFormed = true)
    (hquery : stringsTrim req.GetQuery " " ≠ "") :
    ∃ libs, searchLibrary rankFind req lm = .ok ({ Libraries := libs, Status := .success }, none) ∧
      List.Forall₂ MappedFrom
        (lm.Index.Libraries.filter
          (included rankFind (maximumSearchDistance req.GetQuery) req.GetQuery
            (cleanQuery req.GetQuery))) libs := by
  obtain ⟨out, hout, hall⟩ := libraryLoop_spec rankFind (maximumSearchDistance req.GetQuery)
    req.GetQuery (cleanQuery req.GetQuery) lm.Index.Libraries (lm.wellFormed_mem hwf) []
  refine ⟨out, ?_, hall⟩
  simp only [List.nil_append] at hout
  simp [searchLibrary, hquery, hout, bind, Except.bind, pure, Except.pure]

/-! ## Lemmas on the reference matcher -/

theorem isSubsequence_self (l : List Char) : isSubsequence l l = true := by
  induction l with
  | nil => simp [isSubsequence]
  | cons a l ih => simp [isSubsequence, ih]

theorem levenshtein_self (l : List Char) : levenshtein Levenshtein.defaultCost l l = 0 := by
  induction l with
  | nil => simp
  | cons a l ih =>
    rw [levenshtein_cons_cons, ih]
    simp [Levenshtein.defaultCost]

/-- The reference matcher ranks a string against itself at distance 0. -/
theorem referenceRankFind_self (s : String) (targets : List String) (h : s ∈ targets) :
    ∃ rank ∈ referenceRankFind s targets, rank.Distance = 0 := by
  refine ⟨{ Target := s, Distance := 0 }, ?_, rfl⟩
  unfold referenceRankFind
  rw [List.mem_filterMap]
  refine ⟨s, h, ?_⟩
  simp [isSubsequence_self, levenshtein_self]

theorem forall₂_exists_of_mem {α β : Type} {R : α → β → Prop} {l₁ : List α} {l₂ : List β}
    (h : List.Forall₂ R l₁ l₂) {a : α} (ha : a ∈ l₁) : ∃ b ∈ l₂, R a b := by
  induction h with
  | nil => simp at ha
  | cons hab _ ih =>
    rcases List.mem_cons.mp ha with rfl | ha
    · exact ⟨_, by simp, hab⟩
    · obtain ⟨b, hb, hr⟩ := ih ha
      exact ⟨b, List.mem_cons_of_mem _ hb, hr⟩

theorem maximumSearchDistance_pos (query : String) : 0 < maximumSearchDistance query := by
  unfold maximumSearchDistance
  split <;> decide

theorem included_iff (rankFind : RankFind) (maximum : Int) (query cleaned : String)
    (lib : Library) :
    included rankFind maximum query cleaned lib = true ↔
      ∃ latest, lib.Latest = some latest ∧
        ∃ q ∈ [query, cleaned],
          ∃ rank ∈ rankFind q [lib.Name, latest.Paragraph, latest.Sentence],
            rank.Distance < maximum := by
  unfold included
  cases hl : lib.Latest with
  | none => simp
  | some latest => simp [fieldsMatch]

theorem utf8ByteSize_go_ascii (l : List Char) (h : ∀ c ∈ l, c.toNat < 128) :
    String.utf8ByteSize.go l = l.length := by
  induction l with
  | nil => rfl
  | cons c l ih =>
    have hc : c.toNat < 128 := h c (by simp)
    have hsize : c.utf8Size = 1 := by
      have hle : c.val ≤ 127 := by
        rw [UInt32.le_def]
        have : c.val.val.val < 128 := hc
        exact Nat.le_of_lt_succ this
      simp [Char.utf8Size, hle]
    show String.utf8ByteSize.go l + c.utf8Size = l.length + 1
    rw [ih (fun x hx => h x (List.mem_cons_of_mem _ hx)), hsize]

/-- Go `len` of an ASCII string is its number of characters. -/
theorem len_ascii (s : String) (h : ∀ c ∈ s.data, c.toNat < 128) : len s = s.length := by
  cases s with
  | mk l => exact utf8ByteSize_go_ascii l h

theorem length_le_utf8ByteSize_go (l : List Char) : l.length ≤ String.utf8ByteSize.go l := by
  induction l with
  | nil => exact Nat.le_refl 0
  | cons c l ih =>
    have := Char.utf8Size_pos c
    show l.length + 1 ≤ String.utf8ByteSize.go l + c.utf8Size
    omega

/-- A string has at least as many bytes as characters. -/
theorem length_le_len (s : String) : s.length ≤ len s := by
  cases s with
  | mk l => exact length_le_utf8ByteSize_go l

/-- Trimming never lengthens a string. -/
theorem stringsTrim_length_le (s cutset : String) : (stringsTrim s cutset).length ≤ s.length := by
  unfold stringsTrim
  show (((s.data.dropWhile (inCutset cutset)).reverse.dropWhile (inCutset cutset)).reverse).length
    ≤ s.data.length
  rw [List.length_reverse]
  calc ((s.data.dropWhile (inCutset cutset)).reverse.dropWhile (inCutset cutset)).length
      ≤ (s.data.dropWhile (inCutset cutset)).reverse.length :=
        (List.dropWhile_sublist _).length_le
    _ = (s.data.dropWhile (inCutset cutset)).length := List.length_reverse _
    _ ≤ s.data.length := (List.dropWhile_sublist _).length_le

theorem forall₂_nil_left {α β : Type} {R : α → β → Prop} {l : List β}
    (h : List.Forall₂ R [] l) : l = [] := by
  cases h
  rfl

theorem forall₂_singleton_left {α β : Type} {R : α → β → Prop} {a : α} {l : List β}
    (h : List.Forall₂ R [a] l) : ∃ b, l = [b] ∧ R a b := by
  cases h with
  | cons hab htl =>
    cases htl
    exact ⟨_, rfl, hab⟩

/-- The search on a catalog of one well-formed package, for a non-blank query:
the result is empty or the mapped package, according to `included`. -/
theorem searchLibrary_single (rankFind : RankFind) (req : LibrarySearchReq) (lib : Library)
    (r : SearchedLibrary) (hwf : lib.wellFormed = true)
    (hr : indexLibraryToRPCSearchLibrary lib = .ok r)
    (hquery : stringsTrim req.GetQuery " " ≠ "") :
    searchLibrary rankFind req ⟨⟨[lib]⟩⟩ =
      .ok ({ Libraries :=
              if included rankFind (maximumSearchDistance req.GetQuery) req.GetQuery
                (cleanQuery req.GetQuery) lib = true then [r] else []
             Status := .success }, none) := by
  have hlm : (LibrariesManager.mk ⟨[lib]⟩).wellFormed = true := by
    simp [LibrariesManager.wellFormed, hwf]
  obtain ⟨libs, hres, hall⟩ := searchLibrary_nonblank rankFind req ⟨⟨[lib]⟩⟩ hlm hquery
  rw [hres]
  by_cases hinc : included rankFind (maximumSearchDistance req.GetQuery) req.GetQuery
      (cleanQuery req.GetQuery) lib = true
  · simp only [List.filter_cons_of_pos hinc, List.filter_nil] at hall
    obtain ⟨b, hb, hab⟩ := forall₂_singleton_left hall
    have hab1 : indexLibraryToRPCSearchLibrary lib = .ok b := hab
    rw [hr] at hab1
    cases hab1
    simp [hinc, hb]
  · simp only [List.filter_cons_of_neg hinc, List.filter_nil] at hall
    simp [hinc, forall₂_nil_left hall]

/-! ## Lemmas on the outcome of a search -/

/-- Whenever `searchLibrary` returns, the error is nil and the status is
success. -/
theorem searchLibrary_ok_inv (rankFind : RankFind) (req : LibrarySearchReq)
    (lm : LibrariesManager) (resp : LibrarySearchResp) (err : Option GoError)
    (h : searchLibrary rankFind req lm = .ok (resp, err)) :
    err = none ∧ resp.Status = .success := by
  unfold searchLibrary at h
  by_cases hblank : stringsTrim req.GetQuery " " = ""
  · cases hall : allLoop lm.Index.Libraries [] with
    | error e => simp [hblank, hall, bind, Except.bind] at h
    | ok res =>
      simp [hblank, hall, bind, Except.bind, pure, Except.pure] at h
      obtain ⟨h1, h2⟩ := h
      subst h1 h2
      exact ⟨rfl, rfl⟩
  · cases hall : libraryLoop rankFind (maximumSearchDistance req.GetQuery) req.GetQuery
        (cleanQuery req.GetQuery) lm.Index.Libraries [] with
    | error e => simp [hblank, hall, bind, Except.bind] at h
    | ok res =>
      simp [hblank, hall, bind, Except.bind, pure, Except.pure] at h
      obtain ⟨h1, h2⟩ := h
      subst h1 h2
      exact ⟨rfl, rfl⟩

/-- On a well-formed catalog `searchLibrary` returns, for every query. -/
theorem searchLibrary_wellFormed (rankFind : RankFind) (req : LibrarySearchReq)
    (lm : LibrariesManager) (hwf : lm.wellFormed = true) :
    ∃ libs, searchLibrary rankFind req lm =
      .ok ({ Libraries := libs, Status := .success }, none) := by
  by_cases hblank : stringsTrim req.GetQuery " " = ""
  · obtain ⟨libs, hres, -⟩ := searchLibrary_blank rankFind req lm hwf hblank
    exact ⟨libs, hres⟩
  · obtain ⟨libs, hres, -⟩ := searchLibrary_nonblank rankFind req lm hwf hblank
    exact ⟨libs, hres⟩

theorem LibrarySearch_unresolved (rankFind : RankFind) (table : InstanceTable)
    (req : LibrarySearchReq) (h : table (GetId req.GetInstance) = none) :
    LibrarySearch rankFind table req = .ok (none, some ⟨"invalid instance"⟩) := by
  simp [LibrarySearch, h]

theorem LibrarySearch_resolved (rankFind : RankFind) (table : InstanceTable)
    (req : LibrarySearchReq) (lm : LibrariesManager)
    (h : table (GetId req.GetInstance) = some lm) :
    LibrarySearch rankFind table req =
      (searchLibrary rankFind req lm).map fun p => (some p.1, p.2) := by
  simp only [LibrarySearch, h]
  cases searchLibrary rankFind req lm with
  | error e => rfl
  | ok p => rfl

/-- An error returned by `LibrarySearch` is the invalid-instance error of an
unresolved handle. -/
theorem LibrarySearch_error_inv (rankFind : RankFind) (table : InstanceTable)
    (req : LibrarySearchReq) (resp : Option LibrarySearchResp) (err : GoError)
    (h : LibrarySearch rankFind table req = .ok (resp, some err)) :
    table (GetId req.GetInstance) = none ∧ resp = none ∧ err = ⟨"invalid instance"⟩ := by
  cases ht : table (GetId req.GetInstance) with
  | none =>
    rw [LibrarySearch_unresolved rankFind table req ht] at h
    simp only [Except.ok.injEq, Prod.mk.injEq, Option.some.injEq] at h
    exact ⟨rfl, h.1.symm, h.2.symm⟩
  | some lm =>
    rw [LibrarySearch_resolved rankFind table req lm ht] at h
    cases hs : searchLibrary rankFind req lm with
    | error e => simp [hs, Except.map] at h
    | ok p =>
      obtain ⟨r, e⟩ := p
      have hnone := (searchLibrary_ok_inv rankFind req lm r e hs).1
      subst hnone
      simp [hs, Except.map] at h

/-! ## Lemmas on the cleaned query -/

theorem cleanQueryMapping_space : cleanQueryMapping ' ' = -1 := by
  decide

theorem cleanQueryMapping_of_ne_space (c : Char) (h : c ≠ ' ') :
    cleanQueryMapping c = (c.toNat : Int) := by
  unfold cleanQueryMapping
  split_ifs <;> rfl

theorem mapRune_cleanQueryMapping (c : Char) :
    mapRune cleanQueryMapping c = if c = ' ' then [] else [c] := by
  by_cases h : c = ' '
  · subst h
    simp [mapRune, cleanQueryMapping_space]
  · have hneg : ¬ ((c.toNat : Int) < 0) := by omega
    simp [mapRune, cleanQueryMapping_of_ne_space c h, hneg, h]

theorem flatMap_mapRune_cleanQueryMapping (l : List Char) :
    l.flatMap (mapRune cleanQueryMapping) = l.filter fun c => decide (c ≠ ' ') := by
  induction l with
  | nil => rfl
  | cons c l ih =>
    rw [List.flatMap_cons, ih, mapRune_cleanQueryMapping]
    by_cases h : c = ' '
    · simp [h]
    · simp [h]

/-- The cleaned query is the query without its ASCII spaces. -/
theorem cleanQuery_eq_filter (query : String) :
    cleanQuery query = ⟨query.data.filter fun c => decide (c ≠ ' ')⟩ := by
  unfold cleanQuery stringsMap
  rw [flatMap_mapRune_cleanQueryMapping]

theorem cleanQuery_of_no_space (query : String) (h : ∀ c ∈ query.data, c ≠ ' ') :
    cleanQuery query = query := by
  rw [cleanQuery_eq_filter]
  have hf : (query.data.filter fun c => decide (c ≠ ' ')) = query.data := by
    rw [List.filter_eq_self]
    intro c hc
    simpa using h c hc
  rw [hf]

theorem utf8ByteSize_go_sublist {l₁ l₂ : List Char} (h : l₁.Sublist l₂) :
    String.utf8ByteSize.go l₁ ≤ String.utf8ByteSize.go l₂ := by
  induction h with
  | slnil => exact Nat.le_refl _
  | @cons l₁ l₂ a _ ih =>
    show String.utf8ByteSize.go l₁ ≤ String.utf8ByteSize.go l₂ + a.utf8Size
    omega
  | @cons₂ l₁ l₂ a _ ih =>
    show String.utf8ByteSize.go l₁ + a.utf8Size ≤ String.utf8ByteSize.go l₂ + a.utf8Size
    omega

/-- Go `len` is monotone along the removal of characters. -/
theorem len_le_of_sublist (s t : String) (h : s.data.Sublist t.data) : len s ≤ len t := by
  cases s with
  | mk l₁ =>
    cases t with
    | mk l₂ => exact utf8ByteSize_go_sublist h

theorem maximumSearchDistance_mono (s t : String) (h : len s ≤ len t) :
    maximumSearchDistance s ≤ maximumSearchDistance t := by
  unfold maximumSearchDistance
  split <;> split <;> omega

/-- A list of mapped forms is determined by the list of packages. -/
theorem forall₂_mappedFrom_eq_filterMap {libs : List Library} {out : List SearchedLibrary}
    (h : List.Forall₂ MappedFrom libs out) :
    out = libs.filterMap fun lib => (indexLibraryToRPCSearchLibrary lib).toOption := by
  induction h with
  | nil => rfl
  | @cons lib r libs out hr _ ih =>
    have hr1 : indexLibraryToRPCSearchLibrary lib = .ok r := hr
    simp [List.filterMap_cons, hr1, Except.toOption, ih]

/-! ## Lemmas on the case of ASCII queries -/

/-- A property of all ASCII characters follows from its 128 instances. -/
theorem ascii_cases (P : Char → Prop) (h : ∀ n : Fin 128, P (Char.ofNat n.val)) (c : Char)
    (hc : c.toNat < 128) : P c := by
  have := h ⟨c.toNat, hc⟩
  simpa [Char.ofNat_toNat] using this

theorem ascii_toLower_space (c : Char) (hc : c.toNat < 128) : c.toLower = ' ' → c = ' ' :=
  ascii_cases (fun c => c.toLower = ' ' → c = ' ') (by decide) c hc

theorem ascii_toUpper (c : Char) (hc : c.toNat < 128) :
    c.toUpper.toLower = c.toLower ∧ c.toUpper.toNat < 128 :=
  ascii_cases (fun c => c.toUpper.toLower = c.toLower ∧ c.toUpper.toNat < 128) (by decide) c hc

theorem ascii_toLower (c : Char) (hc : c.toNat < 128) :
    c.toLower.toLower = c.toLower ∧ c.toLower.toNat < 128 :=
  ascii_cases (fun c => c.toLower.toLower = c.toLower ∧ c.toLower.toNat < 128) (by decide) c hc

theorem ascii_space_iff (c c' : Char) (hc : c.toNat < 128) (hc' : c'.toNat < 128)
    (h : c.toLower = c'.toLower) : c = ' ' ↔ c' = ' ' := by
  constructor
  · intro hs
    subst hs
    exact ascii_toLower_space c' hc' h.symm
  · intro hs
    subst hs
    exact ascii_toLower_space c hc h

theorem toUpperCase_ascii (q : String) (hq : ∀ c ∈ q.data, c.toNat < 128) :
    (∀ c ∈ (toUpperCase q).data, c.toNat < 128) ∧ foldCase (toUpperCase q) = foldCase q := by
  constructor
  · intro c hc
    simp only [toUpperCase, List.mem_map] at hc
    obtain ⟨a, ha, rfl⟩ := hc
    exact (ascii_toUpper a (hq a ha)).2
  · simp only [foldCase, toUpperCase, List.map_map]
    apply List.map_congr_left
    intro a ha
    exact (ascii_toUpper a (hq a ha)).1

theorem toLowerCase_ascii (q : String) (hq : ∀ c ∈ q.data, c.toNat < 128) :
    (∀ c ∈ (toLowerCase q).data, c.toNat < 128) ∧ foldCase (toLowerCase q) = foldCase q := by
  constructor
  · intro c hc
    simp only [toLowerCase, List.mem_map] at hc
    obtain ⟨a, ha, rfl⟩ := hc
    exact (ascii_toLower a (hq a ha)).2
  · simp only [foldCase, toLowerCase, List.map_map]
    apply List.map_congr_left
    intro a ha
    exact (ascii_toLower a (hq a ha)).1

/-- Two ASCII character lists with the same case-folded form have their spaces
at the same places: they are blank together, and stay fold-equal once the
spaces are removed. -/
theorem sameFold_lists (l l' : List Char) (hl : ∀ c ∈ l, c.toNat < 128)
    (hl' : ∀ c ∈ l', c.toNat < 128) (h : l.map Char.toLower = l'.map Char.toLower) :
    ((∀ c ∈ l, c = ' ') ↔ (∀ c ∈ l', c = ' ')) ∧
    (l.filter fun c => decide (c ≠ ' ')).map Char.toLower =
      (l'.filter fun c => decide (c ≠ ' ')).map Char.toLower := by
  induction l generalizing l' with
  | nil =>
    cases l' with
    | nil => simp
    | cons c' t' => simp at h
  | cons c t ih =>
    cases l' with
    | nil => simp at h
    | cons c' t' =>
      simp only [List.map_cons, List.cons.injEq] at h
      obtain ⟨hc, ht⟩ := h
      have hsp := ascii_space_iff c c' (hl c (by simp)) (hl' c' (by simp)) hc
      obtain ⟨ih1, ih2⟩ := ih t' (fun x hx => hl x (List.mem_cons_of_mem _ hx))
        (fun x hx => hl' x (List.mem_cons_of_mem _ hx)) ht
      constructor
      · simp only [List.forall_mem_cons, hsp, ih1]
      · by_cases hs : c = ' '
        · have hs' : c' = ' ' := hsp.mp hs
          rw [List.filter_cons_of_neg (by simp [hs]), List.filter_cons_of_neg (by simp [hs'])]
          exact ih2
        · have hs' : ¬ c' = ' ' := fun h' => hs (hsp.mpr h')
          rw [List.filter_cons_of_pos (by simp [hs]), List.filter_cons_of_pos (by simp [hs']),
            List.map_cons, List.map_cons, hc, ih2]

theorem fieldsMatch_congr (rankFind : RankFind) (maximum : Int) (q q' : String)
    (fields : List String)
    (h : (rankFind q fields).map Rank.Distance = (rankFind q' fields).map Rank.Distance) :
    fieldsMatch rankFind maximum q fields = fieldsMatch rankFind maximum q' fields := by
  have key : ∀ ranks : List Rank,
      (ranks.any fun rank => decide (rank.Distance < maximum)) =
        (ranks.map Rank.Distance).any fun d => decide (d < maximum) := by
    intro ranks
    induction ranks with
    | nil => rfl
    | cons rank ranks ih => simp only [List.any_cons, List.map_cons, ih]
  unfold fieldsMatch
  rw [key, key, h]

/-- For a matcher whose distances depend on the query through its case-folded
form only, two ASCII queries with the same case-folded form are blank together
and select the same packages. -/
theorem included_congr_fold (rankFind : RankFind)
    (hfold : ∀ (q q' : String) (targets : List String), foldCase q = foldCase q' →
      (rankFind q targets).map Rank.Distance = (rankFind q' targets).map Rank.Distance)
    (q q' : String) (hq : ∀ c ∈ q.data, c.toNat < 128) (hq' : ∀ c ∈ q'.data, c.toNat < 128)
    (hsame : foldCase q = foldCase q') :
    (stringsTrim q " " = "" ↔ stringsTrim q' " " = "") ∧
    ∀ lib, included rankFind (maximumSearchDistance q) q (cleanQuery q) lib =
      included rankFind (maximumSearchDistance q') q' (cleanQuery q') lib := by
  obtain ⟨hblank, hclean⟩ := sameFold_lists q.data q'.data hq hq' hsame
  refine ⟨by rw [stringsTrim_space_eq_empty_iff, stringsTrim_space_eq_empty_iff, hblank], ?_⟩
  have hlen : len q = len q' := by
    rw [len_ascii q hq, len_ascii q' hq']
    have := congrArg List.length hsame
    simpa [foldCase] using this
  have hmax : maximumSearchDistance q = maximumSearchDistance q' := by
    simp [maximumSearchDistance, hlen]
  have hcleanFold : foldCase (cleanQuery q) = foldCase (cleanQuery q') := by
    rw [cleanQuery_eq_filter, cleanQuery_eq_filter]
    exact hclean
  intro lib
  unfold included
  cases lib.Latest with
  | none => rfl
  | some latest =>
    simp only []
    rw [hmax, fieldsMatch_congr rankFind _ q q' _ (hfold q q' _ hsame),
      fieldsMatch_congr rankFind _ (cleanQuery q) (cleanQuery q') _
        (hfold (cleanQuery q) (cleanQuery q') _ hcleanFold)]

theorem forall₂_mappedFrom_unique {libs : List Library} {a b : List SearchedLibrary}
    (ha : List.Forall₂ MappedFrom libs a) (hb : List.Forall₂ MappedFrom libs b) : a = b := by
  rw [forall₂_mappedFrom_eq_filterMap ha, forall₂_mappedFrom_eq_filterMap hb]

/-- Two queries that are blank together and select the same packages give the
same outcome on a well-formed catalog. -/
theorem searchLibrary_congr (rankFind : RankFind) (inst : Option Instance)
    (lm : LibrariesManager) (hwf : lm.wellFormed = true) (q q' : String)
    (hblank : stringsTrim q " " = "" ↔ stringsTrim q' " " = "")
    (hinc : ∀ lib, included rankFind (maximumSearchDistance q) q (cleanQuery q) lib =
      included rankFind (maximumSearchDistance q') q' (cleanQuery q') lib) :
    searchLibrary rankFind (LibrarySearchReq.mk inst q) lm =
      searchLibrary rankFind (LibrarySearchReq.mk inst q') lm := by
  by_cases hb : stringsTrim q " " = ""
  · obtain ⟨libs, hres, hall⟩ :=
      searchLibrary_blank rankFind (LibrarySearchReq.mk inst q) lm hwf hb
    obtain ⟨libs', hres', hall'⟩ :=
      searchLibrary_blank rankFind (LibrarySearchReq.mk inst q') lm hwf (hblank.mp hb)
    rw [hres, hres', forall₂_mappedFrom_unique hall hall']
  · obtain ⟨libs, hres, hall⟩ :=
      searchLibrary_nonblank rankFind (LibrarySearchReq.mk inst q) lm hwf hb
    obtain ⟨libs', hres', hall'⟩ :=
      searchLibrary_nonblank rankFind (LibrarySearchReq.mk inst q') lm hwf
        (fun h => hb (hblank.mpr h))
    have hfun : included rankFind (maximumSearchDistance q) q (cleanQuery q) =
        included rankFind (maximumSearchDistance q') q' (cleanQuery q') := funext hinc
    simp only [LibrarySearchReq.GetQuery] at hall hall'
    rw [hfun] at hall
    rw [hres, hres', forall₂_mappedFrom_unique hall hall']

/-- The reference matcher reads the query through its case-folded form. -/
theorem referenceRankFind_fold (q q' : String) (targets : List String)
    (h : foldCase q = foldCase q') :
    (referenceRankFind q targets).map Rank.Distance =
      (referenceRankFind q' targets).map Rank.Distance := by
  simp only [referenceRankFind, h]

/-! ## Lemmas on the parts of well-formedness -/

/-- Changing the characters of the source, not their number, moves the
Levenshtein distance to a target by at most the length of the source. -/
theorem levenshtein_le_add_length (xs xs' : List Char) (h : xs.length = xs'.length)
    (ys : List Char) :
    levenshtein Levenshtein.defaultCost xs' ys ≤
      levenshtein Levenshtein.defaultCost xs ys + xs.length := by
  induction xs generalizing xs' ys with
  | nil =>
    cases xs' with
    | nil => simp
    | cons _ _ => simp at h
  | cons x xs ih =>
    cases xs' with
    | nil => simp at h
    | cons x' xs' =>
      have hlen : xs.length = xs'.length := by simpa using h
      induction ys with
      | nil =>
        rw [levenshtein_cons_nil, levenshtein_cons_nil]
        have h1 := ih xs' hlen []
        simp only [Levenshtein.defaultCost, List.length_cons] at h1 ⊢
        omega
      | cons y ys ihy =>
        rw [levenshtein_cons_cons, levenshtein_cons_cons]
        have h1 := ih xs' hlen (y :: ys)
        have h2 := ihy
        have h3 := ih xs' hlen ys
        simp only [Levenshtein.defaultCost, List.length_cons] at h1 h2 h3 ⊢
        split_ifs <;> omega

theorem libraryRankFind_cons (v t : String) (ts : List String) :
    libraryRankFind v (t :: ts) =
      (if isSubsequence (foldCase v) (foldCase t) = true then
        [{ Target := t
           Distance := ((levenshtein Levenshtein.defaultCost v.data t.data : Nat) : Int) }]
      else []) ++ libraryRankFind v ts := by
  unfold libraryRankFind
  by_cases hs : isSubsequence (foldCase v) (foldCase t) = true
  · simp [List.filterMap_cons, hs]
  · simp [List.filterMap_cons, hs]

/-- The library's matcher ranks the same targets for two sources with the same
case-folded form. -/
theorem libraryRankFind_targets (v v' : String) (targets : List String)
    (h : foldCase v = foldCase v') :
    (libraryRankFind v targets).map Rank.Target =
      (libraryRankFind v' targets).map Rank.Target := by
  induction targets with
  | nil => rfl
  | cons t ts ih =>
    rw [libraryRankFind_cons v, libraryRankFind_cons v', List.map_append, List.map_append, ih, h]
    by_cases hs : isSubsequence (foldCase v') (foldCase t) = true
    · simp [hs]
    · simp [hs]

/-- For two sources with the same case-folded form, a target ranked for one is
ranked for the other, at a distance greater by at most the length of the
source. -/
theorem libraryRankFind_variant (v v' : String) (targets : List String)
    (h : foldCase v = foldCase v') (rank : Rank) (hrank : rank ∈ libraryRankFind v targets) :
    ∃ rank' ∈ libraryRankFind v' targets, rank'.Distance ≤ rank.Distance + v.length := by
  have hlen : v.data.length = v'.data.length := by
    have := congrArg List.length h
    simpa [foldCase] using this
  unfold libraryRankFind at hrank ⊢
  rw [List.mem_filterMap] at hrank
  obtain ⟨t, ht, hsome⟩ := hrank
  by_cases hsub : isSubsequence (foldCase v) (foldCase t) = true
  · rw [if_pos hsub] at hsome
    simp only [Option.some.injEq] at hsome
    refine ⟨{ Target := t
              Distance :=
                ((levenshtein Levenshtein.defaultCost v'.data t.data : Nat) : Int) }, ?_, ?_⟩
    · rw [List.mem_filterMap]
      refine ⟨t, ht, ?_⟩
      rw [← h, if_pos hsub]
    · rw [← hsome]
      have := levenshtein_le_add_length v.data v'.data hlen t.data
      show ((levenshtein Levenshtein.defaultCost v'.data t.data : Nat) : Int) ≤
        ((levenshtein Levenshtein.defaultCost v.data t.data : Nat) : Int) + (v.data.length : Int)
      omega
  · rw [if_neg hsub] at hsome
    simp at hsome

/-- What the case of an ASCII query does not change: the blank test, the
threshold, the case-folded form of the cleaned query and the lengths. -/
theorem case_variant_facts (q q' : String) (hq : ∀ c ∈ q.data, c.toNat < 128)
    (hq' : ∀ c ∈ q'.data, c.toNat < 128) (hsame : foldCase q = foldCase q') :
    (stringsTrim q " " = "" ↔ stringsTrim q' " " = "") ∧
    maximumSearchDistance q = maximumSearchDistance q' ∧
    foldCase (cleanQuery q) = foldCase (cleanQuery q') ∧
    q.length = q'.length := by
  obtain ⟨hblank, hclean⟩ := sameFold_lists q.data q'.data hq hq' hsame
  have hlength : q.length = q'.length := by
    have := congrArg List.length hsame
    simpa [foldCase] using this
  refine ⟨by rw [stringsTrim_space_eq_empty_iff, stringsTrim_space_eq_empty_iff, hblank], ?_, ?_,
    hlength⟩
  · have hlen : len q = len q' := by rw [len_ascii q hq, len_ascii q' hq', hlength]
    simp [maximumSearchDistance, hlen]
  · rw [cleanQuery_eq_filter, cleanQuery_eq_filter]
    exact hclean

set_option maxRecDepth 100000 in
theorem ethernet_included_lower :
    included libraryRankFind (maximumSearchDistance "wifi") "wifi" (cleanQuery "wifi")
      ethernetLibrary = true := by
  decide

set_option maxRecDepth 100000 in
theorem ethernet_excluded_upper :
    included libraryRankFind (maximumSearchDistance "WIFI") "WIFI" (cleanQuery "WIFI")
      ethernetLibrary = false := by
  decide

/-! ## The claims -/

/-- C1. Empty query returns everything: on a well-formed catalog, for a query
that is empty or made of ASCII spaces only, `searchLibrary` returns with a nil
error a response holding exactly one result per catalog package, in catalog
order, the result at each position being the mapped form
(`indexLibraryToRPCSearchLibrary`) of the package at that position. -/
theorem searchLibrary_empty_query_returns_everything (rankFind : RankFind)
    (req : LibrarySearchReq) (lm : LibrariesManager) (hwf : lm.wellFormed = true)
    (hblank : ∀ c ∈ req.GetQuery.data, c = ' ') :
    ∃ libs, searchLibrary rankFind req lm = .ok ({ Libraries := libs, Status := .success }, none) ∧
      libs.length = lm.Index.Libraries.length ∧
      List.Forall₂ (fun lib r => indexLibraryToRPCSearchLibrary lib = .ok r)
        lm.Index.Libraries libs := by
  obtain ⟨libs, hres, hall⟩ := searchLibrary_blank rankFind req lm hwf
    ((stringsTrim_space_eq_empty_iff _).mpr hblank)
  exact ⟨libs, hres, hall.length_eq.symm, hall⟩

theorem searchLibrary_empty_query_returns_everything_witness :
    (sampleManager.wellFormed = true ∧
      ∀ c ∈ (LibrarySearchReq.mk none "   ").GetQuery.data, c = ' ') ∧
    ∃ libs, searchLibrary referenceRankFind (LibrarySearchReq.mk none "   ") sampleManager =
        .ok ({ Libraries := libs, Status := .success }, none) ∧
      libs.length = sampleManager.Index.Libraries.length ∧
      List.Forall₂ (fun lib r => indexLibraryToRPCSearchLibrary lib = .ok r)
        sampleManager.Index.Libraries libs :=
  ⟨⟨by decide, by decide⟩,
    searchLibrary_empty_query_returns_everything referenceRankFind (LibrarySearchReq.mk none "   ")
      sampleManager (by decide) (by decide)⟩

/-- C2. Inclusion rule: on a well-formed catalog, for a query that is not blank
after trimming ASCII spaces, the result of `searchLibrary` is the catalog's
packages, in catalog order, filtered by `included` and each mapped by
`indexLibraryToRPCSearchLibrary`; a package is `included` exactly when some rank
returned by the matcher for its fields name, latest paragraph, latest sentence,
for the raw query or for the cleaned query, has a distance strictly below the
threshold; ranks at a distance equal to the threshold do not include it. -/
theorem searchLibrary_inclusion_rule (rankFind : RankFind) (req : LibrarySearchReq)
    (lm : LibrariesManager) (hwf : lm.wellFormed = true)
    (hquery : stringsTrim req.GetQuery " " ≠ "") :
    (∃ libs, searchLibrary rankFind req lm =
        .ok ({ Libraries := libs, Status := .success }, none) ∧
      List.Forall₂ (fun lib r => indexLibraryToRPCSearchLibrary lib = .ok r)
        (lm.Index.Libraries.filter
          (included rankFind (maximumSearchDistance req.GetQuery) req.GetQuery
            (cleanQuery req.GetQuery))) libs) ∧
    (∀ lib, included rankFind (maximumSearchDistance req.GetQuery) req.GetQuery
          (cleanQuery req.GetQuery) lib = true ↔
        ∃ latest, lib.Latest = some latest ∧
          ∃ q ∈ [req.GetQuery, cleanQuery req.GetQuery],
            ∃ rank ∈ rankFind q [lib.Name, latest.Paragraph, latest.Sentence],
              rank.Distance < maximumSearchDistance req.GetQuery) ∧
    (∀ lib latest, lib.Latest = some latest →
      (∀ q ∈ [req.GetQuery, cleanQuery req.GetQuery],
        ∀ rank ∈ rankFind q [lib.Name, latest.Paragraph, latest.Sentence],
          rank.Distance = maximumSearchDistance req.GetQuery) →
      included rankFind (maximumSearchDistance req.GetQuery) req.GetQuery
        (cleanQuery req.GetQuery) lib = false) := by
  refine ⟨searchLibrary_nonblank rankFind req lm hwf hquery, fun lib => included_iff _ _ _ _ lib,
    ?_⟩
  intro lib latest hl hall
  rw [Bool.eq_false_iff]
  intro hinc
  obtain ⟨latest1, hl1, q, hq, rank, hrank, hlt⟩ := (included_iff _ _ _ _ lib).mp hinc
  rw [hl] at hl1
  cases hl1
  have := hall q hq rank hrank
  omega

theorem searchLibrary_inclusion_rule_witness :
    (sampleManager.wellFormed = true ∧
      stringsTrim (LibrarySearchReq.mk none " wifi").GetQuery " " ≠ "") ∧
    ∃ libs, searchLibrary referenceRankFind (LibrarySearchReq.mk none " wifi") sampleManager =
        .ok ({ Libraries := libs, Status := .success }, none) ∧
      List.Forall₂ (fun lib r => indexLibraryToRPCSearchLibrary lib = .ok r)
        (sampleManager.Index.Libraries.filter
          (included referenceRankFind
            (maximumSearchDistance (LibrarySearchReq.mk none " wifi").GetQuery)
            (LibrarySearchReq.mk none " wifi").GetQuery
            (cleanQuery (LibrarySearchReq.mk none " wifi").GetQuery))) libs :=
  ⟨⟨by decide, by decide⟩,
    (searchLibrary_inclusion_rule referenceRankFind (LibrarySearchReq.mk none " wifi")
      sampleManager (by decide) (by decide)).1⟩

/-- C3. No duplication, order preserved: on a well-formed catalog, for every
query, the result list of `searchLibrary` is the one-to-one mapped image of an
order-preserving sublist of the catalog's packages, so it is never longer than
the catalog. -/
theorem searchLibrary_results_sublist (rankFind : RankFind) (req : LibrarySearchReq)
    (lm : LibrariesManager) (hwf : lm.wellFormed = true) :
    ∃ libs kept, searchLibrary rankFind req lm =
        .ok ({ Libraries := libs, Status := .success }, none) ∧
      List.Sublist kept lm.Index.Libraries ∧
      List.Forall₂ (fun lib r => indexLibraryToRPCSearchLibrary lib = .ok r) kept libs ∧
      libs.length ≤ lm.Index.Libraries.length := by
  by_cases hblank : stringsTrim req.GetQuery " " = ""
  · obtain ⟨libs, hres, hall⟩ := searchLibrary_blank rankFind req lm hwf hblank
    exact ⟨libs, lm.Index.Libraries, hres, List.Sublist.refl _, hall, by rw [hall.length_eq]⟩
  · obtain ⟨libs, hres, hall⟩ := searchLibrary_nonblank rankFind req lm hwf hblank
    refine ⟨libs, _, hres, List.filter_sublist _, hall, ?_⟩
    rw [← hall.length_eq]
    exact List.length_filter_le _ _

theorem searchLibrary_results_sublist_witness :
    sampleManager.wellFormed = true ∧
    ∃ libs kept, searchLibrary referenceRankFind (LibrarySearchReq.mk none "wifi101")
        sampleManager = .ok ({ Libraries := libs, Status := .success }, none) ∧
      List.Sublist kept sampleManager.Index.Libraries ∧
      List.Forall₂ (fun lib r => indexLibraryToRPCSearchLibrary lib = .ok r) kept libs ∧
      libs.length ≤ sampleManager.Index.Libraries.length :=
  ⟨by decide,
    searchLibrary_results_sublist referenceRankFind (LibrarySearchReq.mk none "wifi101")
      sampleManager (by decide)⟩

/-- C4. Self-match: for a matcher that ranks every string against itself at
distance 0, on a well-formed catalog, `searchLibrary` called with the name of a
package `p` of the catalog as query returns a result list that contains the
mapped form of `p`. -/
theorem searchLibrary_self_match (rankFind : RankFind)
    (hself : ∀ (s : String) (targets : List String), s ∈ targets →
      ∃ rank ∈ rankFind s targets, rank.Distance = 0)
    (req : LibrarySearchReq) (lm : LibrariesManager) (hwf : lm.wellFormed = true)
    (p : Library) (hp : p ∈ lm.Index.Libraries) (hq : req.GetQuery = p.Name) :
    ∃ libs r, searchLibrary rankFind req lm =
        .ok ({ Libraries := libs, Status := .success }, none) ∧
      indexLibraryToRPCSearchLibrary p = .ok r ∧ r ∈ libs := by
  by_cases hblank : stringsTrim req.GetQuery " " = ""
  · obtain ⟨libs, hres, hall⟩ := searchLibrary_blank rankFind req lm hwf hblank
    obtain ⟨r, hr, hpr⟩ := forall₂_exists_of_mem hall hp
    exact ⟨libs, r, hres, hpr, hr⟩
  · obtain ⟨libs, hres, hall⟩ := searchLibrary_nonblank rankFind req lm hwf hblank
    obtain ⟨latest, hl, -⟩ := p.wellFormed_latest (lm.wellFormed_mem hwf p hp)
    have hinc : included rankFind (maximumSearchDistance req.GetQuery) req.GetQuery
        (cleanQuery req.GetQuery) p = true := by
      rw [included_iff]
      obtain ⟨rank, hrank, hd⟩ :=
        hself req.GetQuery [p.Name, latest.Paragraph, latest.Sentence] (by simp [hq])
      refine ⟨latest, hl, req.GetQuery, by simp, rank, hrank, ?_⟩
      rw [hd]
      exact maximumSearchDistance_pos _
    obtain ⟨r, hr, hpr⟩ := forall₂_exists_of_mem hall (List.mem_filter.mpr ⟨hp, hinc⟩)
    exact ⟨libs, r, hres, hpr, hr⟩

theorem searchLibrary_self_match_witness :
    (sampleManager.wellFormed = true ∧ otherLibrary ∈ sampleManager.Index.Libraries ∧
      (LibrarySearchReq.mk none "Servo").GetQuery = otherLibrary.Name) ∧
    ∃ libs r, searchLibrary referenceRankFind (LibrarySearchReq.mk none "Servo") sampleManager =
        .ok ({ Libraries := libs, Status := .success }, none) ∧
      indexLibraryToRPCSearchLibrary otherLibrary = .ok r ∧ r ∈ libs :=
  ⟨⟨by decide, by simp [sampleManager], by decide⟩,
    searchLibrary_self_match referenceRankFind referenceRankFind_self
      (LibrarySearchReq.mk none "Servo") sampleManager (by decide) otherLibrary
      (by simp [sampleManager]) (by decide)⟩

/-- C5. The claim that the cleaned query has every underscore, hyphen and
space removed fails on the code: the `switch` removes the space only, so on the
query `wi-fi_1 01` the cleaned query still holds the hyphen and the underscore. -/
theorem cleanQuery_keeps_underscore_and_hyphen :
    cleanQuery "wi-fi_1 01" = "wi-fi_101" ∧ cleanQuery "wi-fi_101" = "wi-fi_101" ∧
      cleanQuery "wi-fi_101" ≠ "wifi101" := by
  decide

/-- C6. The claim that the queries `wi-fi_101` and `wifi101` lead to the same
inclusion decision for a package named `wifi101` fails on the code: with the
reference matcher and the catalog holding that package only, the query
`wifi101` returns the mapped package and the query `wi-fi_101` returns
nothing. -/
theorem searchLibrary_wifi101_queries_disagree :
    (∃ r, indexLibraryToRPCSearchLibrary sampleLibrary = .ok r ∧
      searchLibrary referenceRankFind (LibrarySearchReq.mk none "wifi101") wifiManager =
        .ok ({ Libraries := [r], Status := .success }, none)) ∧
    searchLibrary referenceRankFind (LibrarySearchReq.mk none "wi-fi_101") wifiManager =
      .ok ({ Libraries := [], Status := .success }, none) := by
  obtain ⟨r, hr⟩ := indexLibraryToRPCSearchLibrary_wellFormed sampleLibrary (by decide)
  have hr1 : indexLibraryToRPCSearchLibrary sampleLibrary = .ok r := hr
  have h1 := searchLibrary_single referenceRankFind (LibrarySearchReq.mk none "wifi101")
    sampleLibrary r (by decide) hr1 (by decide)
  have h2 := searchLibrary_single referenceRankFind (LibrarySearchReq.mk none "wi-fi_101")
    sampleLibrary r (by decide) hr1 (by decide)
  have hin : included referenceRankFind
      (maximumSearchDistance (LibrarySearchReq.mk none "wifi101").GetQuery)
      (LibrarySearchReq.mk none "wifi101").GetQuery
      (cleanQuery (LibrarySearchReq.mk none "wifi101").GetQuery) sampleLibrary = true := by
    decide
  have hout : included referenceRankFind
      (maximumSearchDistance (LibrarySearchReq.mk none "wi-fi_101").GetQuery)
      (LibrarySearchReq.mk none "wi-fi_101").GetQuery
      (cleanQuery (LibrarySearchReq.mk none "wi-fi_101").GetQuery) sampleLibrary = false := by
    decide
  rw [hin] at h1
  rw [hout] at h2
  exact ⟨⟨r, hr1, h1⟩, h2⟩

/-- C7. Threshold tiering on the untrimmed query: the maximum distance used by
`searchLibrary` is 40 when Go `len` of the untrimmed query is at most 4 and 150
otherwise, and no other value; hence, for a non-blank ASCII query and a
well-formed package whose fields get a single rank, at a distance `d` with
`40 <= d < 150`, for the raw and for the cleaned query, the search on the
catalog holding that package returns nothing when the query has 4 characters
and returns the mapped package when it has 5. -/
theorem maximumSearchDistance_tiering (query : String) :
    (len query ≤ 4 → maximumSearchDistance query = 40) ∧
    (4 < len query → maximumSearchDistance query = 150) ∧
    (maximumSearchDistance query = 40 ∨ maximumSearchDistance query = 150) ∧
    (∀ (rankFind : RankFind) (inst : Option Instance) (lib : Library) (latest : Release)
        (d : Int),
      (∀ c ∈ query.data, c.toNat < 128) → stringsTrim query " " ≠ "" →
      lib.wellFormed = true → lib.Latest = some latest → 40 ≤ d → d < 150 →
      (∀ q ∈ [query, cleanQuery query], ∃ target,
        rankFind q [lib.Name, latest.Paragraph, latest.Sentence] =
          [{ Target := target, Distance := d }]) →
      (query.length = 4 →
        searchLibrary rankFind (LibrarySearchReq.mk inst query) ⟨⟨[lib]⟩⟩ =
          .ok ({ Libraries := [], Status := .success }, none)) ∧
      (query.length = 5 →
        ∃ r, indexLibraryToRPCSearchLibrary lib = .ok r ∧
          searchLibrary rankFind (LibrarySearchReq.mk inst query) ⟨⟨[lib]⟩⟩ =
            .ok ({ Libraries := [r], Status := .success }, none))) := by
  refine ⟨fun h => by simp [maximumSearchDistance, h],
    fun h => by simp [maximumSearchDistance, Nat.not_le.mpr h], ?_, ?_⟩
  · unfold maximumSearchDistance
    split
    · exact Or.inl rfl
    · exact Or.inr rfl
  · intro rankFind inst lib latest d hascii hquery hwf hl hd40 hd150 hranks
    obtain ⟨r, hr⟩ := indexLibraryToRPCSearchLibrary_wellFormed lib hwf
    have hr1 : indexLibraryToRPCSearchLibrary lib = .ok r := hr
    have hsingle := searchLibrary_single rankFind (LibrarySearchReq.mk inst query) lib r hwf hr1
      hquery
    have hlen := len_ascii query hascii
    constructor
    · intro h4
      have hmax : maximumSearchDistance query = 40 := by
        simp [maximumSearchDistance, hlen, h4]
      have hexc : ¬ included rankFind (maximumSearchDistance query) query (cleanQuery query)
          lib = true := by
        rw [included_iff]
        rintro ⟨latest1, hl1, q, hq, rank, hrank, hlt⟩
        rw [hl] at hl1
        cases hl1
        obtain ⟨target, ht⟩ := hranks q hq
        rw [ht] at hrank
        simp only [List.mem_singleton] at hrank
        rw [hrank, hmax] at hlt
        exact absurd hlt (by simpa using hd40)
      rw [hsingle]
      simp only [LibrarySearchReq.GetQuery]
      rw [if_neg hexc]
    · intro h5
      have hmax : maximumSearchDistance query = 150 := by
        simp [maximumSearchDistance, hlen, h5]
      have hinc : included rankFind (maximumSearchDistance query) query (cleanQuery query)
          lib = true := by
        rw [included_iff]
        obtain ⟨target, ht⟩ := hranks query (by simp)
        refine ⟨latest, hl, query, by simp, { Target := target, Distance := d }, ?_, ?_⟩
        · rw [ht]
          simp
        · rw [hmax]
          exact hd150
      refine ⟨r, hr1, ?_⟩
      rw [hsingle]
      simp only [LibrarySearchReq.GetQuery]
      rw [if_pos hinc]

theorem maximumSearchDistance_tiering_witness :
    (maximumSearchDistance "abcd" = 40 ∧ maximumSearchDistance "abcde" = 150) ∧
    searchLibrary (firstTargetRankFind 100) (LibrarySearchReq.mk none "abcd") wifiManager =
      .ok ({ Libraries := [], Status := .success }, none) ∧
    ∃ r, indexLibraryToRPCSearchLibrary sampleLibrary = .ok r ∧
      searchLibrary (firstTargetRankFind 100) (LibrarySearchReq.mk none "abcde") wifiManager =
        .ok ({ Libraries := [r], Status := .success }, none) :=
  ⟨⟨(maximumSearchDistance_tiering "abcd").1 (by decide),
      (maximumSearchDistance_tiering "abcde").2.1 (by decide)⟩,
    ((maximumSearchDistance_tiering "abcd").2.2.2 (firstTargetRankFind 100) none sampleLibrary
      sampleRelease 100 (by decide) (by decide) (by decide) rfl (by decide) (by decide)
      (fun _ _ => ⟨"wifi101", rfl⟩)).1 rfl,
    ((maximumSearchDistance_tiering "abcde").2.2.2 (firstTargetRankFind 100) none sampleLibrary
      sampleRelease 100 (by decide) (by decide) (by decide) rfl (by decide) (by decide)
      (fun _ _ => ⟨"wifi101", rfl⟩)).2 rfl⟩

/-- C8, as stated, fails: the query of two spaces, `ab` and two spaces is not
blank and its trimmed form has 2 characters, yet the maximum distance is 150,
and a package ranked at distance 100 is returned. -/
theorem maximumSearchDistance_trimmed_length_counterexample :
    stringsTrim "  ab  " " " ≠ "" ∧ (stringsTrim "  ab  " " ").length ≤ 4 ∧
    maximumSearchDistance "  ab  " ≠ 40 ∧ maximumSearchDistance "  ab  " = 150 ∧
    ∃ r, searchLibrary (firstTargetRankFind 100) (LibrarySearchReq.mk none "  ab  ")
        wifiManager = .ok ({ Libraries := [r], Status := .success }, none) := by
  refine ⟨by decide, by decide, by decide, by decide, ?_⟩
  obtain ⟨r, hr⟩ := indexLibraryToRPCSearchLibrary_wellFormed sampleLibrary (by decide)
  have hr1 : indexLibraryToRPCSearchLibrary sampleLibrary = .ok r := hr
  have h := searchLibrary_single (firstTargetRankFind 100) (LibrarySearchReq.mk none "  ab  ")
    sampleLibrary r (by decide) hr1 (by decide)
  have hin : included (firstTargetRankFind 100)
      (maximumSearchDistance (LibrarySearchReq.mk none "  ab  ").GetQuery)
      (LibrarySearchReq.mk none "  ab  ").GetQuery
      (cleanQuery (LibrarySearchReq.mk none "  ab  ").GetQuery) sampleLibrary = true := by
    decide
  rw [hin] at h
  exact ⟨r, h⟩

/-- C8, amended. The threshold policy follows the untrimmed query: for every
query the maximum distance is 40 exactly when Go `len` of the untrimmed query
is at most 4, and 150 exactly when it is more; so a query whose trimmed form
has more than 4 characters uses 150, and a query that uses 40 has a trimmed
form of at most 4 characters. -/
theorem maximumSearchDistance_untrimmed_length (query : String) :
    (maximumSearchDistance query = 40 ↔ len query ≤ 4) ∧
    (maximumSearchDistance query = 150 ↔ 4 < len query) ∧
    (4 < (stringsTrim query " ").length → maximumSearchDistance query = 150) ∧
    (maximumSearchDistance query = 40 → (stringsTrim query " ").length ≤ 4) := by
  have hle : (stringsTrim query " ").length ≤ len query :=
    Nat.le_trans (stringsTrim_length_le query " ") (length_le_len query)
  by_cases h : len query ≤ 4
  · have hmax : maximumSearchDistance query = 40 := by simp [maximumSearchDistance, h]
    rw [hmax]
    exact ⟨⟨fun _ => h, fun _ => rfl⟩, ⟨fun h150 => by omega, fun h4 => by omega⟩,
      fun h4 => by omega, fun _ => by omega⟩
  · have hmax : maximumSearchDistance query = 150 := by simp [maximumSearchDistance, h]
    rw [hmax]
    exact ⟨⟨fun h40 => by omega, fun h4 => absurd h4 h⟩, ⟨fun _ => by omega, fun _ => rfl⟩,
      fun _ => rfl, fun h40 => by omega⟩

theorem maximumSearchDistance_untrimmed_length_witness :
    4 < (stringsTrim " wifi101 " " ").length ∧ maximumSearchDistance " wifi101 " = 150 :=
  ⟨by decide, (maximumSearchDistance_untrimmed_length " wifi101 ").2.2.1 (by decide)⟩

/-- C9. Release mapping fidelity: for a release with a version and a resource
descriptor, whose dependencies each have a constraint, `getLibraryParameters`
returns a record whose author, maintainer, sentence, paragraph, website,
category, architectures, types, license, providesIncludes and five resource
fields equal the input's, whose version is the string form of the input
version, and whose dependencies have the length of the input's, the i-th being
the pair of the name and of the string form of the constraint of the i-th
input dependency. -/
theorem getLibraryParameters_fidelity (rel : Release) (v : Version)
    (resource : DownloadResource) (hv : rel.Version = some v)
    (hr : rel.Resource = some resource)
    (hdeps : ∀ dep ∈ rel.Dependencies, dep.GetConstraint.isSome = true) :
    ∃ out, getLibraryParameters (some rel) = .ok out ∧
      out.Author = rel.Author ∧ out.Maintainer = rel.Maintainer ∧
      out.Sentence = rel.Sentence ∧ out.Paragraph = rel.Paragraph ∧
      out.Website = rel.Website ∧ out.Category = rel.Category ∧
      out.Architectures = rel.Architectures ∧ out.Types = rel.Types ∧
      out.License = rel.License ∧ out.ProvidesIncludes = rel.ProvidesIncludes ∧
      out.Resources.Url = resource.URL ∧
      out.Resources.Archivefilename = resource.ArchiveFileName ∧
      out.Resources.Checksum = resource.Checksum ∧
      out.Resources.Size = resource.Size ∧
      out.Resources.Cachepath = resource.CachePath ∧
      out.Version = v.String ∧
      out.Dependencies.length = rel.Dependencies.length ∧
      ∀ (i : Nat) (dep : Dependency), rel.Dependencies[i]? = some dep →
        ∃ c, dep.GetConstraint = some c ∧
          out.Dependencies[i]? =
            some { Name := dep.GetName, VersionConstraint := c.String } := by
  obtain ⟨dependencies, hd, hall⟩ := getLibraryDependenciesParameter_spec rel.GetDependencies
    (fun dep hdep => Option.isSome_iff_exists.mp (hdeps dep hdep))
  refine ⟨_, getLibraryParameters_some rel v resource dependencies hv hr hd, rfl, rfl, rfl, rfl,
    rfl, rfl, rfl, rfl, rfl, rfl, rfl, rfl, rfl, rfl, rfl, rfl, hall.length_eq.symm, ?_⟩
  intro i dep hi
  obtain ⟨d, hdi, c, hc, hdc⟩ := forall₂_getElem? hall i dep hi
  exact ⟨c, hc, by rw [← hdc]; exact hdi⟩

theorem getLibraryParameters_fidelity_witness :
    (sampleRelease.Version = some ⟨"0.16.1"⟩ ∧ sampleRelease.Resource = some sampleResource ∧
      ∀ dep ∈ sampleRelease.Dependencies, dep.GetConstraint.isSome = true) ∧
    ∃ out, getLibraryParameters (some sampleRelease) = .ok out ∧
      out.Author = sampleRelease.Author ∧ out.Maintainer = sampleRelease.Maintainer ∧
      out.Sentence = sampleRelease.Sentence ∧ out.Paragraph = sampleRelease.Paragraph ∧
      out.Website = sampleRelease.Website ∧ out.Category = sampleRelease.Category ∧
      out.Architectures = sampleRelease.Architectures ∧ out.Types = sampleRelease.Types ∧
      out.License = sampleRelease.License ∧
      out.ProvidesIncludes = sampleRelease.ProvidesIncludes ∧
      out.Resources.Url = sampleResource.URL ∧
      out.Resources.Archivefilename = sampleResource.ArchiveFileName ∧
      out.Resources.Checksum = sampleResource.Checksum ∧
      out.Resources.Size = sampleResource.Size ∧
      out.Resources.Cachepath = sampleResource.CachePath ∧
      out.Version = (Version.mk "0.16.1").String ∧
      out.Dependencies.length = sampleRelease.Dependencies.length ∧
      ∀ (i : Nat) (dep : Dependency), sampleRelease.Dependencies[i]? = some dep →
        ∃ c, dep.GetConstraint = some c ∧
          out.Dependencies[i]? =
            some { Name := dep.GetName, VersionConstraint := c.String } :=
  ⟨⟨rfl, rfl, by decide⟩,
    getLibraryParameters_fidelity sampleRelease ⟨"0.16.1"⟩ sampleResource rfl rfl (by decide)⟩

/-- C10. Package mapping mirrors the package: for a well-formed package,
`indexLibraryToRPCSearchLibrary` returns a result whose name is the package
name, whose latest is `getLibraryParameters` of the package's latest release,
and whose releases map has exactly the keys of the package's releases, each
key bound to `getLibraryParameters` of the release stored under that key. -/
theorem indexLibraryToRPCSearchLibrary_mirrors_package (lib : Library)
    (hwf : lib.wellFormed = true) :
    ∃ out, indexLibraryToRPCSearchLibrary lib = .ok out ∧
      out.Name = lib.Name ∧
      getLibraryParameters lib.Latest = .ok out.Latest ∧
      (∀ k, k ∈ out.Releases.keys ↔ k ∈ lib.Releases.keys) ∧
      (∀ k rel, lib.Releases.lookup k = some rel →
        ∃ r, getLibraryParameters (some rel) = .ok r ∧ out.Releases.lookup k = some r) := by
  obtain ⟨latest, hl, hlw⟩ := lib.wellFormed_latest hwf
  obtain ⟨releases, hout, hin, hnot⟩ :=
    releasesLoop_spec lib.Releases.entries lib.Releases.nodupKeys (lib.wellFormed_releases hwf) ∅
  obtain ⟨r, hr⟩ := getLibraryParameters_wellFormed latest hlw
  refine ⟨{ Name := lib.Name, Releases := releases, Latest := r }, ?_, rfl, ?_, ?_, ?_⟩
  · simp [indexLibraryToRPCSearchLibrary, hout, hl, hr, bind, Except.bind, pure, Except.pure]
  · rw [hl]
    exact hr
  · intro k
    show k ∈ releases.keys ↔ k ∈ lib.Releases.keys
    rw [← AList.mem_keys, ← AList.mem_keys, ← AList.lookup_isSome, ← AList.lookup_isSome]
    cases hk : lib.Releases.lookup k with
    | none =>
      have := hnot k hk
      rw [AList.lookup_empty] at this
      simp [this]
    | some rel =>
      obtain ⟨r1, -, hr1⟩ := hin k rel hk
      simp [hr1]
  · intro k rel hk
    exact hin k rel hk

theorem indexLibraryToRPCSearchLibrary_mirrors_package_witness :
    sampleLibrary.wellFormed = true ∧
    ∃ out, indexLibraryToRPCSearchLibrary sampleLibrary = .ok out ∧
      out.Name = sampleLibrary.Name ∧
      getLibraryParameters sampleLibrary.Latest = .ok out.Latest ∧
      (∀ k, k ∈ out.Releases.keys ↔ k ∈ sampleLibrary.Releases.keys) ∧
      (∀ k rel, sampleLibrary.Releases.lookup k = some rel →
        ∃ r, getLibraryParameters (some rel) = .ok r ∧ out.Releases.lookup k = some r) :=
  ⟨by decide, indexLibraryToRPCSearchLibrary_mirrors_package sampleLibrary (by decide)⟩

/-- C11. Invalid instance: `LibrarySearch` returns an error, and then no
response, exactly when the instance handle does not resolve to a library
manager; in that case the outcome is the invalid-instance error whatever the
matcher, so neither matching nor mapping takes part in it, and when the handle
resolves to `lm` the outcome is that of `searchLibrary` on `lm`. -/
theorem LibrarySearch_invalid_instance (rankFind : RankFind) (table : InstanceTable)
    (req : LibrarySearchReq) :
    (table (GetId req.GetInstance) = none →
      ∀ anyRankFind : RankFind,
        LibrarySearch anyRankFind table req = .ok (none, some ⟨"invalid instance"⟩)) ∧
    (∀ resp err, LibrarySearch rankFind table req = .ok (resp, some err) →
      table (GetId req.GetInstance) = none ∧ resp = none) ∧
    (∀ lm, table (GetId req.GetInstance) = some lm →
      LibrarySearch rankFind table req =
        (searchLibrary rankFind req lm).map fun p => (some p.1, p.2)) := by
  refine ⟨fun h anyRankFind => LibrarySearch_unresolved anyRankFind table req h, ?_,
    fun lm h => LibrarySearch_resolved rankFind table req lm h⟩
  intro resp err h
  obtain ⟨h1, h2, -⟩ := LibrarySearch_error_inv rankFind table req resp err h
  exact ⟨h1, h2⟩

theorem LibrarySearch_invalid_instance_witness :
    (singleInstance sampleManager (GetId (LibrarySearchReq.mk (some ⟨7⟩) "wifi").GetInstance) =
        none ∧
      singleInstance sampleManager (GetId (LibrarySearchReq.mk (some ⟨1⟩) "wifi").GetInstance) =
        some sampleManager) ∧
    LibrarySearch referenceRankFind (singleInstance sampleManager)
        (LibrarySearchReq.mk (some ⟨7⟩) "wifi") = .ok (none, some ⟨"invalid instance"⟩) ∧
    LibrarySearch referenceRankFind (singleInstance sampleManager)
        (LibrarySearchReq.mk (some ⟨1⟩) "wifi") =
      (searchLibrary referenceRankFind (LibrarySearchReq.mk (some ⟨1⟩) "wifi")
        sampleManager).map fun p => (some p.1, p.2) :=
  ⟨⟨rfl, rfl⟩,
    (LibrarySearch_invalid_instance referenceRankFind (singleInstance sampleManager)
      (LibrarySearchReq.mk (some ⟨7⟩) "wifi")).1 rfl referenceRankFind,
    (LibrarySearch_invalid_instance referenceRankFind (singleInstance sampleManager)
      (LibrarySearchReq.mk (some ⟨1⟩) "wifi")).2.2 sampleManager rfl⟩

/-- C12. Status and error of a search: on a well-formed catalog, for every
query, `searchLibrary` returns a nil error and a response whose status is
success; whenever it returns at all the error is nil and the status success;
and the only error `LibrarySearch` returns is the invalid-instance error of an
unresolved handle. -/
theorem searchLibrary_status_success (rankFind : RankFind) (req : LibrarySearchReq)
    (lm : LibrariesManager) :
    (lm.wellFormed = true →
      ∃ libs, searchLibrary rankFind req lm =
        .ok ({ Libraries := libs, Status := .success }, none)) ∧
    (∀ resp err, searchLibrary rankFind req lm = .ok (resp, err) →
      err = none ∧ resp.Status = .success) ∧
    (∀ (table : InstanceTable) resp err,
      LibrarySearch rankFind table req = .ok (resp, some err) →
        table (GetId req.GetInstance) = none ∧ err = ⟨"invalid instance"⟩) := by
  refine ⟨searchLibrary_wellFormed rankFind req lm,
    fun resp err h => searchLibrary_ok_inv rankFind req lm resp err h, ?_⟩
  intro table resp err h
  obtain ⟨h1, -, h3⟩ := LibrarySearch_error_inv rankFind table req resp err h
  exact ⟨h1, h3⟩

theorem searchLibrary_status_success_witness :
    sampleManager.wellFormed = true ∧
    ∃ libs, searchLibrary referenceRankFind (LibrarySearchReq.mk none "servo") sampleManager =
      .ok ({ Libraries := libs, Status := .success }, none) :=
  ⟨by decide,
    (searchLibrary_status_success referenceRankFind (LibrarySearchReq.mk none "servo")
      sampleManager).1 (by decide)⟩

/-- C15. Inserting spaces never loses results: for a non-blank query `q`
without ASCII space and a query `q'` that gives `q` back when its ASCII spaces
are removed, the cleaned form of `q'` is `q`, the threshold for `q'` is at
least the threshold for `q`, every package included for `q` is included for
`q'`, and on a well-formed catalog the results for `q` are a sublist of the
results for `q'`, whatever the matcher. -/
theorem searchLibrary_inserting_spaces (rankFind : RankFind) (inst : Option Instance)
    (lm : LibrariesManager) (hwf : lm.wellFormed = true) (q q' : String)
    (hquery : stringsTrim q " " ≠ "") (hnospace : ∀ c ∈ q.data, c ≠ ' ')
    (hinsert : (q'.data.filter fun c => decide (c ≠ ' ')) = q.data) :
    cleanQuery q' = q ∧
    maximumSearchDistance q ≤ maximumSearchDistance q' ∧
    (∀ lib, included rankFind (maximumSearchDistance q) q (cleanQuery q) lib = true →
      included rankFind (maximumSearchDistance q') q' (cleanQuery q') lib = true) ∧
    ∃ libs libs',
      searchLibrary rankFind (LibrarySearchReq.mk inst q) lm =
        .ok ({ Libraries := libs, Status := .success }, none) ∧
      searchLibrary rankFind (LibrarySearchReq.mk inst q') lm =
        .ok ({ Libraries := libs', Status := .success }, none) ∧
      List.Sublist libs libs' := by
  have hclean' : cleanQuery q' = q := by
    rw [cleanQuery_eq_filter, hinsert]
  have hclean : cleanQuery q = q := cleanQuery_of_no_space q hnospace
  have hsub : q.data.Sublist q'.data := by
    rw [← hinsert]
    exact List.filter_sublist _
  have hmax : maximumSearchDistance q ≤ maximumSearchDistance q' :=
    maximumSearchDistance_mono q q' (len_le_of_sublist q q' hsub)
  have hinc : ∀ lib, included rankFind (maximumSearchDistance q) q (cleanQuery q) lib = true →
      included rankFind (maximumSearchDistance q') q' (cleanQuery q') lib = true := by
    intro lib h
    rw [included_iff] at h
    obtain ⟨latest, hl, q0, hq0, rank, hrank, hlt⟩ := h
    rw [hclean] at hq0
    have hq0q : q0 = q := by simpa using hq0
    subst hq0q
    rw [included_iff]
    refine ⟨latest, hl, q0, ?_, rank, hrank, Int.lt_of_lt_of_le hlt hmax⟩
    rw [hclean']
    simp
  have hquery' : stringsTrim q' " " ≠ "" := by
    intro hb
    apply hquery
    rw [stringsTrim_space_eq_empty_iff] at hb ⊢
    intro c hc
    exact hb c (hsub.subset hc)
  refine ⟨hclean', hmax, hinc, ?_⟩
  obtain ⟨libs, hres, hall⟩ :=
    searchLibrary_nonblank rankFind (LibrarySearchReq.mk inst q) lm hwf hquery
  obtain ⟨libs', hres', hall'⟩ :=
    searchLibrary_nonblank rankFind (LibrarySearchReq.mk inst q') lm hwf hquery'
  refine ⟨libs, libs', hres, hres', ?_⟩
  rw [forall₂_mappedFrom_eq_filterMap hall, forall₂_mappedFrom_eq_filterMap hall']
  apply List.Sublist.filterMap
  apply List.monotone_filter_right
  intro lib h
  exact hinc lib h

theorem searchLibrary_inserting_spaces_witness :
    (sampleManager.wellFormed = true ∧ stringsTrim "wifi101" " " ≠ "" ∧
      (∀ c ∈ "wifi101".data, c ≠ ' ') ∧
      (" wi fi 101 ".data.filter fun c => decide (c ≠ ' ')) = "wifi101".data) ∧
    cleanQuery " wi fi 101 " = "wifi101" ∧
    maximumSearchDistance "wifi101" ≤ maximumSearchDistance " wi fi 101 " ∧
    (∀ lib, included referenceRankFind (maximumSearchDistance "wifi101") "wifi101"
        (cleanQuery "wifi101") lib = true →
      included referenceRankFind (maximumSearchDistance " wi fi 101 ") " wi fi 101 "
        (cleanQuery " wi fi 101 ") lib = true) ∧
    ∃ libs libs',
      searchLibrary referenceRankFind (LibrarySearchReq.mk none "wifi101") sampleManager =
        .ok ({ Libraries := libs, Status := .success }, none) ∧
      searchLibrary referenceRankFind (LibrarySearchReq.mk none " wi fi 101 ") sampleManager =
        .ok ({ Libraries := libs', Status := .success }, none) ∧
      List.Sublist libs libs' :=
  ⟨⟨by decide, by decide, by decide, by decide⟩,
    searchLibrary_inserting_spaces referenceRankFind none sampleManager (by decide) "wifi101"
      " wi fi 101 " (by decide) (by decide) (by decide)⟩

/-- C16. Cleaned query as implemented: the cleaned query is the query with its
ASCII spaces deleted and nothing else, so it is never longer than the query
(in characters and in bytes), cleaning is idempotent, and for a query without
ASCII space the cleaned query is the raw query, in which case the inclusion of
a package is decided by the pass on the raw query alone. -/
theorem cleanQuery_deletes_spaces_only (query : String) :
    cleanQuery query = ⟨query.data.filter fun c => decide (c ≠ ' ')⟩ ∧
    (cleanQuery query).length ≤ query.length ∧
    len (cleanQuery query) ≤ len query ∧
    cleanQuery (cleanQuery query) = cleanQuery query ∧
    ((∀ c ∈ query.data, c ≠ ' ') →
      cleanQuery query = query ∧
      ∀ (rankFind : RankFind) (maximum : Int) (lib : Library) (latest : Release),
        lib.Latest = some latest →
        included rankFind maximum query (cleanQuery query) lib =
          fieldsMatch rankFind maximum query [lib.Name, latest.Paragraph, latest.Sentence]) := by
  have hsub : (cleanQuery query).data.Sublist query.data := by
    rw [cleanQuery_eq_filter]
    exact List.filter_sublist _
  refine ⟨cleanQuery_eq_filter query, hsub.length_le, len_le_of_sublist _ _ hsub, ?_, ?_⟩
  · apply cleanQuery_of_no_space
    intro c hc
    rw [cleanQuery_eq_filter] at hc
    simpa using (List.mem_filter.mp hc).2
  · intro h
    refine ⟨cleanQuery_of_no_space query h, ?_⟩
    intro rankFind maximum lib latest hl
    rw [cleanQuery_of_no_space query h]
    simp [included, hl]

theorem cleanQuery_deletes_spaces_only_witness :
    (∀ c ∈ "wi-fi_101".data, c ≠ ' ') ∧ cleanQuery "wi-fi_101" = "wi-fi_101" :=
  ⟨by decide, ((cleanQuery_deletes_spaces_only "wi-fi_101").2.2.2.2 (by decide)).1⟩

/-- C17. The tier is decided by byte length, not character count: for every
query the threshold is 40 exactly when the UTF-8 byte length of the untrimmed
query is at most 4; the non-blank query of three letters e-acute has 3
characters and 6 bytes and gets the threshold 150, under which a package
ranked at distance 100 is returned; and the word `ab` padded with spaces to 5
bytes gets 150 as well. -/
theorem maximumSearchDistance_byte_length :
    (∀ query : String, maximumSearchDistance query = 40 ↔ query.utf8ByteSize ≤ 4) ∧
    (stringsTrim "ééé" " " ≠ "" ∧ "ééé".length = 3 ∧ "ééé".utf8ByteSize = 6 ∧
      maximumSearchDistance "ééé" = 150) ∧
    (∃ r, indexLibraryToRPCSearchLibrary sampleLibrary = .ok r ∧
      searchLibrary (firstTargetRankFind 100) (LibrarySearchReq.mk none "ééé") wifiManager =
        .ok ({ Libraries := [r], Status := .success }, none)) ∧
    (stringsTrim " ab  " " " = "ab" ∧ " ab  ".utf8ByteSize = 5 ∧
      maximumSearchDistance " ab  " = 150 ∧ maximumSearchDistance "ab" = 40) := by
  refine ⟨?_, by decide, ?_, by decide⟩
  · intro query
    unfold maximumSearchDistance len
    split
    · simp [*]
    · simp [*]
  · obtain ⟨r, hr⟩ := indexLibraryToRPCSearchLibrary_wellFormed sampleLibrary (by decide)
    have hr1 : indexLibraryToRPCSearchLibrary sampleLibrary = .ok r := hr
    have h := searchLibrary_single (firstTargetRankFind 100) (LibrarySearchReq.mk none "ééé")
      sampleLibrary r (by decide) hr1 (by decide)
    have hin : included (firstTargetRankFind 100)
        (maximumSearchDistance (LibrarySearchReq.mk none "ééé").GetQuery)
        (LibrarySearchReq.mk none "ééé").GetQuery
        (cleanQuery (LibrarySearchReq.mk none "ééé").GetQuery) sampleLibrary = true := by
      decide
    rw [hin] at h
    exact ⟨r, hr1, h⟩

/-- C14, as stated, fails for the matcher of the library, whose distance is
measured on the strings as given: on the catalog holding the package
`Ethernet`, whose 40-character sentence holds the letters of `wifi` in order,
the query `wifi` returns the package (distance 36, below 40) and its
upper-case form `WIFI` returns nothing (distance 40). -/
theorem searchLibrary_case_changes_decision :
    (∀ c ∈ "wifi".data, c.toNat < 128) ∧ "WIFI" = toUpperCase "wifi" ∧
    ethernetManager.wellFormed = true ∧
    (∃ r, indexLibraryToRPCSearchLibrary ethernetLibrary = .ok r ∧
      searchLibrary libraryRankFind (LibrarySearchReq.mk none "wifi") ethernetManager =
        .ok ({ Libraries := [r], Status := .success }, none)) ∧
    searchLibrary libraryRankFind (LibrarySearchReq.mk none "WIFI") ethernetManager =
      .ok ({ Libraries := [], Status := .success }, none) := by
  obtain ⟨r, hr⟩ := indexLibraryToRPCSearchLibrary_wellFormed ethernetLibrary (by decide)
  have hr1 : indexLibraryToRPCSearchLibrary ethernetLibrary = .ok r := hr
  have h1 := searchLibrary_single libraryRankFind (LibrarySearchReq.mk none "wifi")
    ethernetLibrary r (by decide) hr1 (by decide)
  have h2 := searchLibrary_single libraryRankFind (LibrarySearchReq.mk none "WIFI")
    ethernetLibrary r (by decide) hr1 (by decide)
  have hin : included libraryRankFind
      (maximumSearchDistance (LibrarySearchReq.mk none "wifi").GetQuery)
      (LibrarySearchReq.mk none "wifi").GetQuery
      (cleanQuery (LibrarySearchReq.mk none "wifi").GetQuery) ethernetLibrary = true :=
    ethernet_included_lower
  have hout : included libraryRankFind
      (maximumSearchDistance (LibrarySearchReq.mk none "WIFI").GetQuery)
      (LibrarySearchReq.mk none "WIFI").GetQuery
      (cleanQuery (LibrarySearchReq.mk none "WIFI").GetQuery) ethernetLibrary = false :=
    ethernet_excluded_upper
  rw [hin] at h1
  rw [hout] at h2
  exact ⟨by decide, by decide, by decide, ⟨r, hr1, h1⟩, h2⟩

/-- C14, amended. For an ASCII query `q` and the query `q'` obtained by
replacing its letters by their upper-case forms, or by their lower-case forms,
or any ASCII query with the same case-folded form: the blank test, the
threshold and the case-folded form of the cleaned query are the same; the
matcher of the library ranks the same fields for `q'` as for `q`, and a package
with a field ranked for `q`, raw or cleaned, at a distance `d` such that
`d` plus the length of `q` is below the threshold is included for `q'`; and for
a matcher whose distances depend on the query through its case-folded form
only, `q'` selects the same packages as `q` and, on a well-formed catalog,
gives the same outcome of `searchLibrary`. -/
theorem searchLibrary_case_variants (inst : Option Instance) (lm : LibrariesManager)
    (hwf : lm.wellFormed = true) (q : String) (hq : ∀ c ∈ q.data, c.toNat < 128)
    (q' : String)
    (hq' : q' = toUpperCase q ∨ q' = toLowerCase q ∨
      ((∀ c ∈ q'.data, c.toNat < 128) ∧ foldCase q' = foldCase q)) :
    ((stringsTrim q' " " = "" ↔ stringsTrim q " " = "") ∧
      maximumSearchDistance q' = maximumSearchDistance q ∧
      foldCase (cleanQuery q') = foldCase (cleanQuery q)) ∧
    (∀ targets : List String,
      (libraryRankFind q' targets).map Rank.Target =
        (libraryRankFind q targets).map Rank.Target) ∧
    (∀ (lib : Library) (latest : Release), lib.Latest = some latest →
      (∃ v ∈ [q, cleanQuery q],
        ∃ rank ∈ libraryRankFind v [lib.Name, latest.Paragraph, latest.Sentence],
          rank.Distance + (q.length : Int) < maximumSearchDistance q) →
      included libraryRankFind (maximumSearchDistance q') q' (cleanQuery q') lib = true) ∧
    (∀ rankFind : RankFind,
      (∀ (s s' : String) (targets : List String), foldCase s = foldCase s' →
        (rankFind s targets).map Rank.Distance = (rankFind s' targets).map Rank.Distance) →
      (∀ lib, included rankFind (maximumSearchDistance q') q' (cleanQuery q') lib =
        included rankFind (maximumSearchDistance q) q (cleanQuery q) lib) ∧
      searchLibrary rankFind (LibrarySearchReq.mk inst q') lm =
        searchLibrary rankFind (LibrarySearchReq.mk inst q) lm) := by
  have hboth : (∀ c ∈ q'.data, c.toNat < 128) ∧ foldCase q' = foldCase q := by
    rcases hq' with h | h | h
    · rw [h]
      exact toUpperCase_ascii q hq
    · rw [h]
      exact toLowerCase_ascii q hq
    · exact h
  obtain ⟨hblank, hmax, hclean, hlength⟩ := case_variant_facts q' q hboth.1 hq hboth.2
  refine ⟨⟨hblank, hmax, hclean⟩, fun targets => libraryRankFind_targets q' q targets hboth.2,
    ?_, ?_⟩
  · intro lib latest hl hex
    obtain ⟨v, hv, rank, hrank, hlt⟩ := hex
    have hcleanLength : (cleanQuery q).length ≤ q.length := by
      have hsub : (cleanQuery q).data.Sublist q.data := by
        rw [cleanQuery_eq_filter]
        exact List.filter_sublist _
      exact hsub.length_le
    rw [included_iff]
    simp only [List.mem_cons, List.mem_singleton, List.not_mem_nil, or_false] at hv
    rcases hv with rfl | rfl
    · obtain ⟨rank', hrank', hle⟩ := libraryRankFind_variant v q' _ hboth.2.symm rank hrank
      refine ⟨latest, hl, q', by simp, rank', hrank', ?_⟩
      rw [hmax]
      omega
    · obtain ⟨rank', hrank', hle⟩ :=
        libraryRankFind_variant (cleanQuery q) (cleanQuery q') _ hclean.symm rank hrank
      refine ⟨latest, hl, cleanQuery q', by simp, rank', hrank', ?_⟩
      rw [hmax]
      have : ((cleanQuery q).length : Int) ≤ (q.length : Int) := by exact_mod_cast hcleanLength
      omega
  · intro rankFind hfold
    obtain ⟨hb, hinc⟩ := included_congr_fold rankFind hfold q' q hboth.1 hq hboth.2
    exact ⟨hinc, searchLibrary_congr rankFind inst lm hwf q' q hb hinc⟩

theorem searchLibrary_case_variants_witness :
    (wifiManager.wellFormed = true ∧ (∀ c ∈ "wifi101".data, c.toNat < 128) ∧
      "WIFI101" = toUpperCase "wifi101") ∧
    included libraryRankFind (maximumSearchDistance "WIFI101") "WIFI101" (cleanQuery "WIFI101")
      sampleLibrary = true ∧
    searchLibrary referenceRankFind (LibrarySearchReq.mk none "WIFI101") wifiManager =
      searchLibrary referenceRankFind (LibrarySearchReq.mk none "wifi101") wifiManager :=
  ⟨⟨by decide, by decide, by decide⟩,
    (searchLibrary_case_variants none wifiManager (by decide) "wifi101" (by decide) "WIFI101"
      (Or.inl (by decide))).2.2.1 sampleLibrary sampleRelease rfl
      ⟨"wifi101", by simp, { Target := "wifi101", Distance := 0 }, by decide, by decide⟩,
    ((searchLibrary_case_variants none wifiManager (by decide) "wifi101" (by decide) "WIFI101"
      (Or.inl (by decide))).2.2.2 referenceRankFind referenceRankFind_fold).2⟩

end LibSearch
